import Mathlib

/-
Formal verification of the GraphBuilder core of `pipe_base`
(`src/python/lsst/pipe/base/graphBuilder.py`).

The Python code is shallowly embedded: every definition below mirrors a
construct of the source file (line numbers cited in the doc comments), with
external collaborators (task factory, registry/catalog, expression parser,
dimension universe) modelled as function-valued parameters, and Python
exceptions modelled by an `Except` result.  Python `dict`s (which preserve
insertion order and overwrite values in place) are modelled by
insertion-ordered association lists with exactly those semantics.
-/

set_option maxHeartbeats 1000000
set_option synthInstance.maxSize 4096

namespace PipeBase

/-- A named, dimension-typed kind of data product (daf.butler `DatasetType`):
identity-relevant attributes are the name and the defining dimension set. -/
structure DatasetType where
  name : String
  dimensions : List String
deriving DecidableEq

/-- A reference to one dataset instance: its type, its data coordinate
(a dict dimension → value), and the optional existing identity `ref.id`
(present iff the dataset was already produced/registered). -/
structure DatasetRef where
  datasetType : DatasetType
  dataId : List (String × Int)
  id : Option Nat
deriving DecidableEq

/-- One joined result row from `registry.selectDimensions`: a data coordinate
(dict column → value) plus a dict DatasetType → DatasetRef. -/
structure DimensionRow where
  dataId : List (String × Int)
  datasetRefs : List (DatasetType × DatasetRef)
deriving DecidableEq

/-- The `config.quantum` part of a task configuration: the names of the
quantum dimensions the task declares. -/
structure QuantumConfig where
  dimensions : List String
deriving DecidableEq

/-- A task configuration; only `config.quantum.dimensions` is read by the
graph builder. -/
structure TaskConfig where
  quantum : QuantumConfig
deriving DecidableEq

/-- One pipeline stage (`TaskDef`): label, (possibly not yet loaded) task
class, task name, configuration.  The task class handle is modelled as a
string. -/
structure TaskDef where
  label : String
  taskName : String
  taskClass : Option String
  config : TaskConfig
deriving DecidableEq

/-- The namedtuple `_TaskDatasetTypes` (graphBuilder.py line 55): a task
together with its four declared dataset-type lists. -/
structure TaskDatasetTypes where
  taskDef : TaskDef
  inputs : List DatasetType
  outputs : List DatasetType
  initInputs : List DatasetType
  initOutputs : List DatasetType
deriving DecidableEq

/-- One unit of work (`Quantum`): predicted inputs and outputs, in the order
`addPredictedInput` / `addOutput` were called. -/
structure Quantum where
  predictedInputs : List DatasetRef
  outputs : List DatasetRef
deriving DecidableEq

/-- `QuantumGraphTaskNodes`: one task's quanta. -/
structure QuantumGraphTaskNodes where
  taskDef : TaskDef
  quanta : List Quantum
deriving DecidableEq

/-- The full build plan (`QuantumGraph`). -/
structure QuantumGraph where
  inputDatasetTypes : List DatasetType
  outputDatasetTypes : List DatasetType
  initInputs : List DatasetRef
  initOutputs : List DatasetRef
  tasks : List QuantumGraphTaskNodes
deriving DecidableEq

/-- The graph builder's error taxonomy (graphBuilder.py lines 58-80).
`userExpression` keeps the offending string and the parser diagnostic,
`outputExists` the task name and the conflicting references, `graphBuilder`
the message of the generic `GraphBuilderError`; `keyError` stands for an
underlying Python `KeyError` escaping from a dict lookup. -/
inductive BuildError where
  | userExpression (expr : String) (diag : String)
  | outputExists (taskName : String) (refs : List DatasetRef)
  | graphBuilder (msg : String)
  | keyError
deriving DecidableEq

instance {ε α : Type} [DecidableEq ε] [DecidableEq α] : DecidableEq (Except ε α) :=
  fun a b =>
    match a, b with
    | .ok x, .ok y =>
      if h : x = y then .isTrue (by rw [h]) else .isFalse (by intro hc; cases hc; exact h rfl)
    | .error x, .error y =>
      if h : x = y then .isTrue (by rw [h]) else .isFalse (by intro hc; cases hc; exact h rfl)
    | .ok _, .error _ => .isFalse (by intro hc; cases hc)
    | .error _, .ok _ => .isFalse (by intro hc; cases hc)

/-! ### Insertion-ordered association lists (Python `dict` semantics)

A Python dict preserves insertion order; assigning to an existing key
overwrites the value in place, assigning to a fresh key appends it. -/

/-- Dict lookup `d[k]` (as an `Option`). -/
def alistFind? {κ α : Type} [DecidableEq κ] (d : List (κ × α)) (k : κ) : Option α :=
  (d.find? (fun p => decide (p.1 = k))).map (·.2)

/-- Dict assignment `d[k] = v`: overwrite in place, or append a fresh key. -/
def alistSet {κ α : Type} [DecidableEq κ] : List (κ × α) → κ → α → List (κ × α)
  | [], k, v => [(k, v)]
  | p :: rest, k, v => if p.1 = k then (k, v) :: rest else p :: alistSet rest k v

theorem alistFind?_nil {κ α : Type} [DecidableEq κ] (k : κ) :
    alistFind? ([] : List (κ × α)) k = none := rfl

theorem alistFind?_cons {κ α : Type} [DecidableEq κ] (p : κ × α) (d : List (κ × α)) (k : κ) :
    alistFind? (p :: d) k = if p.1 = k then some p.2 else alistFind? d k := by
  by_cases h : p.1 = k <;> simp [alistFind?, List.find?, h]

theorem alistFind?_set_self {κ α : Type} [DecidableEq κ] (d : List (κ × α)) (k : κ) (v : α) :
    alistFind? (alistSet d k v) k = some v := by
  induction d with
  | nil => simp [alistSet, alistFind?_cons]
  | cons p rest ih =>
    by_cases h : p.1 = k
    · simp [alistSet, h, alistFind?_cons]
    · simp [alistSet, h, alistFind?_cons, ih]

theorem alistFind?_set_ne {κ α : Type} [DecidableEq κ] (d : List (κ × α)) (k k' : κ) (v : α)
    (h : k' ≠ k) : alistFind? (alistSet d k v) k' = alistFind? d k' := by
  induction d with
  | nil => simp [alistSet, alistFind?_cons, alistFind?_nil, Ne.symm h]
  | cons p rest ih =>
    obtain ⟨a, b⟩ := p
    by_cases hp : a = k
    · subst hp
      simp [alistSet, alistFind?_cons, Ne.symm h]
    · by_cases hk : a = k' <;> simp [alistSet, hp, alistFind?_cons, hk, ih, h]

/-- The keys of a dict after an assignment. -/
theorem alistSet_keys {κ α : Type} [DecidableEq κ] (d : List (κ × α)) (k : κ) (v : α) :
    (alistSet d k v).map Prod.fst = d.map Prod.fst
      ∨ (alistSet d k v).map Prod.fst = d.map Prod.fst ++ [k] := by
  induction d with
  | nil => right; rfl
  | cons p rest ih =>
    by_cases h : p.1 = k
    · left; simp [alistSet, h]
    · rcases ih with ih | ih
      · left; simp [alistSet, h, ih]
      · right; simp [alistSet, h, ih]

theorem mem_keys_alistSet {κ α : Type} [DecidableEq κ] (d : List (κ × α)) (k k' : κ) (v : α) :
    k' ∈ (alistSet d k v).map Prod.fst ↔ k' = k ∨ k' ∈ d.map Prod.fst := by
  induction d with
  | nil => simp [alistSet]
  | cons p rest ih =>
    by_cases h : p.1 = k
    · subst h; by_cases hk : k' = p.1 <;> simp [alistSet, hk]
    · simp only [alistSet, if_neg h, List.map_cons, List.mem_cons, ih]
      tauto

theorem alistFind?_isSome_iff {κ α : Type} [DecidableEq κ] (d : List (κ × α)) (k : κ) :
    (alistFind? d k).isSome ↔ k ∈ d.map Prod.fst := by
  induction d with
  | nil => simp [alistFind?_nil]
  | cons p rest ih =>
    rw [alistFind?_cons]
    by_cases h : p.1 = k
    · simp [h]
    · simp only [if_neg h, ih, List.map_cons, List.mem_cons]
      constructor
      · exact Or.inr
      · rintro (hc | hc)
        · exact absurd hc.symm h
        · exact hc

theorem alistFind?_eq_some_mem {κ α : Type} [DecidableEq κ] {d : List (κ × α)} {k : κ} {v : α}
    (h : alistFind? d k = some v) : (k, v) ∈ d := by
  induction d with
  | nil => simp [alistFind?_nil] at h
  | cons p rest ih =>
    rw [alistFind?_cons] at h
    by_cases hp : p.1 = k
    · rw [if_pos hp] at h
      injection h with h2
      exact List.mem_cons.mpr (Or.inl (by rw [← hp, ← h2]))
    · rw [if_neg hp] at h
      exact List.mem_cons_of_mem _ (ih h)

theorem mem_alistFind?_of_nodup {κ α : Type} [DecidableEq κ] {d : List (κ × α)} {k : κ} {v : α}
    (hnd : (d.map Prod.fst).Nodup) (h : (k, v) ∈ d) : alistFind? d k = some v := by
  induction d with
  | nil => simp at h
  | cons p rest ih =>
    rw [List.map_cons, List.nodup_cons] at hnd
    rw [alistFind?_cons]
    rcases List.mem_cons.mp h with h | h
    · subst h; simp
    · have hk : p.1 ≠ k := by
        intro hc
        exact hnd.1 (hc ▸ (List.mem_map.mpr ⟨(k, v), h, rfl⟩))
      rw [if_neg hk]
      exact ih hnd.2 h

theorem alistSet_keys_of_mem {κ α : Type} [DecidableEq κ] {d : List (κ × α)} {k : κ} (v : α)
    (h : k ∈ d.map Prod.fst) : (alistSet d k v).map Prod.fst = d.map Prod.fst := by
  induction d with
  | nil => simp at h
  | cons p rest ih =>
    by_cases hp : p.1 = k
    · simp [alistSet, hp]
    · rcases List.mem_cons.mp h with h | h
      · exact absurd h.symm hp
      · simp [alistSet, hp, ih h]

theorem alistSet_keys_of_not_mem {κ α : Type} [DecidableEq κ] {d : List (κ × α)} {k : κ} (v : α)
    (h : k ∉ d.map Prod.fst) : (alistSet d k v).map Prod.fst = d.map Prod.fst ++ [k] := by
  induction d with
  | nil => rfl
  | cons p rest ih =>
    rw [List.map_cons, List.mem_cons] at h
    push_neg at h
    simp [alistSet, Ne.symm h.1, ih h.2]

theorem keysNodup_alistSet {κ α : Type} [DecidableEq κ] (d : List (κ × α)) (k : κ) (v : α)
    (h : (d.map Prod.fst).Nodup) : ((alistSet d k v).map Prod.fst).Nodup := by
  by_cases hk : k ∈ d.map Prod.fst
  · rw [alistSet_keys_of_mem v hk]; exact h
  · rw [alistSet_keys_of_not_mem v hk]
    refine List.Nodup.append h (List.nodup_singleton k) ?_
    intro x hx hx'
    rw [List.mem_singleton] at hx'
    exact hk (hx' ▸ hx)

theorem mem_alistSet_elim {κ α : Type} [DecidableEq κ] {d : List (κ × α)} {k : κ} {v : α}
    {p : κ × α} (h : p ∈ alistSet d k v) : p = (k, v) ∨ p ∈ d := by
  induction d with
  | nil => simpa [alistSet] using h
  | cons q rest ih =>
    by_cases hq : q.1 = k
    · rw [alistSet, if_pos hq] at h
      rcases List.mem_cons.mp h with h | h
      · exact Or.inl h
      · exact Or.inr (List.mem_cons_of_mem _ h)
    · rw [alistSet, if_neg hq] at h
      rcases List.mem_cons.mp h with h | h
      · exact Or.inr (h ▸ List.mem_cons_self _ _)
      · rcases ih h with h | h
        · exact Or.inl h
        · exact Or.inr (List.mem_cons_of_mem _ h)

/-! ### Deduplication keys

`_dataRefKey(dataRef)` (graphBuilder.py lines 315-316) is
`tuple(sorted(dataRef.dataId.items()))`: the (dimension, value) pairs of the
reference's coordinate, sorted.  Python sorts the pairs lexicographically;
we sort with an insertion sort under the same lexicographic order (string
key first, then integer value). -/

/-- Lexicographic comparison of character lists. -/
def charListLe : List Char → List Char → Bool
  | [], _ => true
  | _ :: _, [] => false
  | a :: as, b :: bs => if a = b then charListLe as bs else decide (a.toNat < b.toNat)

/-- Lexicographic string comparison. -/
def strLe (a b : String) : Bool := charListLe a.data b.data

/-- Lexicographic comparison of (dimension, value) pairs, as Python compares
tuples. -/
def pairLe (p q : String × Int) : Bool :=
  if p.1 = q.1 then decide (p.2 ≤ q.2) else strLe p.1 q.1

def insertPair (p : String × Int) : List (String × Int) → List (String × Int)
  | [] => [p]
  | q :: qs => if pairLe p q then p :: q :: qs else q :: insertPair p qs

/-- Python `sorted` on the items of a data-coordinate dict. -/
def sortPairs : List (String × Int) → List (String × Int)
  | [] => []
  | p :: ps => insertPair p (sortPairs ps)

/-- `_dataRefKey` (graphBuilder.py lines 315-316): the deduplication key of a
candidate `DatasetRef`. -/
def dataRefKey (r : DatasetRef) : List (String × Int) := sortPairs r.dataId

/-! ### `GraphBuilder._loadTaskClass` (graphBuilder.py lines 132-152) -/

/-- `GraphBuilder._loadTaskClass`: if the task class is already loaded the
`TaskDef` is returned as is; otherwise the task factory is consulted and an
updated copy (`copy.copy` in the source — the argument itself is not
mutated, which the purity of this embedding reflects) is returned with the
class and the fully-qualified task name filled in.  The factory
`taskFactory.loadTaskClass` is modelled as a function
name ↦ (class handle, fully-qualified name). -/
def _loadTaskClass (taskFactory : String → String × String) (taskDef : TaskDef) : TaskDef :=
  match taskDef.taskClass with
  | some _ => taskDef
  | none =>
    { taskDef with
        taskClass := some (taskFactory taskDef.taskName).1,
        taskName := (taskFactory taskDef.taskName).2 }

/-! ### `GraphBuilder._makeFullIODatasetTypes` (graphBuilder.py lines 203-245)

Python `set`s of names are modelled as insertion-ordered duplicate-free
lists (the claims we settle about them are order-independent), and the
`allDatasetTypes` dict by the association-list dict above. -/

/-- The dataset types of one task in the order the source iterates them:
`("inputs", "outputs", "initInputs", "initOutputs")`. -/
def taskAllTypes (t : TaskDatasetTypes) : List DatasetType :=
  t.inputs ++ t.outputs ++ t.initInputs ++ t.initOutputs

/-- The `allDatasetTypes` dict (graphBuilder.py lines 224-234): every
declared type is assigned under its name, `allDatasetTypes[dsType.name] =
dsType`, in task-declaration order. -/
def allDatasetTypes (ts : List TaskDatasetTypes) : List (String × DatasetType) :=
  ((ts.map taskAllTypes).flatten).foldl (fun d dsType => alistSet d dsType.name dsType) []

/-- `ioSet.add(dsType.name)` over a category: the names in first-occurrence
order, without duplicates (a Python `set`). -/
def orderedNames (l : List DatasetType) : List String :=
  l.foldl (fun s d => if d.name ∈ s then s else s ++ [d.name]) []

/-- The four pipeline-global dataset-type sets returned by
`_makeFullIODatasetTypes`. -/
structure FullDatasetTypes where
  inputs : List DatasetType
  outputs : List DatasetType
  initInputs : List DatasetType
  initOutputs : List DatasetType
deriving DecidableEq

/-- `GraphBuilder._makeFullIODatasetTypes` (graphBuilder.py lines 203-245):
collect the name sets per category, remove output names from input names
and init-output names from init-input names, and map every surviving name
through the `allDatasetTypes` dict. -/
def _makeFullIODatasetTypes (ts : List TaskDatasetTypes) : FullDatasetTypes :=
  let all := allDatasetTypes ts
  let inputNames := orderedNames ((ts.map (·.inputs)).flatten)
  let outputNames := orderedNames ((ts.map (·.outputs)).flatten)
  let initInputNames := orderedNames ((ts.map (·.initInputs)).flatten)
  let initOutputNames := orderedNames ((ts.map (·.initOutputs)).flatten)
  -- "remove outputs from inputs" (line 236)
  let inputNames := inputNames.filter (fun n => decide (n ∉ outputNames))
  -- "remove initOutputs from initInputs" (line 239)
  let initInputNames := initInputNames.filter (fun n => decide (n ∉ initOutputNames))
  { inputs := inputNames.filterMap (alistFind? all),
    outputs := outputNames.filterMap (alistFind? all),
    initInputs := initInputNames.filterMap (alistFind? all),
    initOutputs := initOutputNames.filterMap (alistFind? all) }

/-! ### Properties of the `allDatasetTypes` dict and the name sets -/

theorem allDatasetTypes_fold_name (l : List DatasetType) (d₀ : List (String × DatasetType))
    (h₀ : ∀ n d, alistFind? d₀ n = some d → d.name = n) :
    ∀ n d, alistFind? (l.foldl (fun d x => alistSet d x.name x) d₀) n = some d → d.name = n := by
  induction l generalizing d₀ with
  | nil => exact h₀
  | cons x rest ih =>
    intro n d h
    rw [List.foldl_cons] at h
    refine ih _ ?_ n d h
    intro n' d' h'
    by_cases hn : n' = x.name
    · subst hn
      rw [alistFind?_set_self] at h'
      injection h' with h2
      rw [← h2]
    · rw [alistFind?_set_ne d₀ x.name n' x hn] at h'
      exact h₀ n' d' h'

theorem allDatasetTypes_fold_isSome (l : List DatasetType) (d₀ : List (String × DatasetType))
    (n : String) :
    (alistFind? (l.foldl (fun d x => alistSet d x.name x) d₀) n).isSome
      ↔ (alistFind? d₀ n).isSome ∨ n ∈ l.map DatasetType.name := by
  induction l generalizing d₀ with
  | nil => simp
  | cons x rest ih =>
    rw [List.foldl_cons, ih]
    by_cases hn : n = x.name
    · subst hn
      simp [alistFind?_set_self]
    · rw [alistFind?_set_ne d₀ x.name n x hn]
      simp [hn]

/-- A name that reaches the dict resolves to the type assigned to it last
(Python dict assignment overwrites). -/
theorem alistFind?_foldAssign (l : List DatasetType) (d₀ : List (String × DatasetType))
    (n : String) :
    alistFind? (l.foldl (fun d x => alistSet d x.name x) d₀) n
      = (l.reverse.find? (fun d => decide (d.name = n))).or (alistFind? d₀ n) := by
  induction l generalizing d₀ with
  | nil => simp
  | cons x rest ih =>
    rw [List.foldl_cons, ih, List.reverse_cons, List.find?_append]
    cases hfind : rest.reverse.find? (fun d => decide (d.name = n)) with
    | some d => simp [Option.or]
    | none =>
      by_cases hn : x.name = n
      · have : n = x.name := hn.symm
        subst this
        simp [alistFind?_set_self, List.find?]
      · rw [alistFind?_set_ne d₀ x.name n x (Ne.symm hn)]
        simp [List.find?, hn, Option.or]

theorem allDatasetTypes_name {ts : List TaskDatasetTypes} {n : String} {d : DatasetType}
    (h : alistFind? (allDatasetTypes ts) n = some d) : d.name = n :=
  allDatasetTypes_fold_name _ [] (by intro n' d' h'; simp [alistFind?_nil] at h') n d h

theorem allDatasetTypes_isSome (ts : List TaskDatasetTypes) (n : String) :
    (alistFind? (allDatasetTypes ts) n).isSome
      ↔ n ∈ ((ts.map taskAllTypes).flatten).map DatasetType.name := by
  rw [allDatasetTypes, allDatasetTypes_fold_isSome]
  simp [alistFind?_nil]

theorem mem_orderedNames (l : List DatasetType) (n : String) :
    n ∈ orderedNames l ↔ n ∈ l.map DatasetType.name := by
  have key : ∀ (s₀ : List String),
      n ∈ l.foldl (fun s d => if d.name ∈ s then s else s ++ [d.name]) s₀
        ↔ n ∈ s₀ ∨ n ∈ l.map DatasetType.name := by
    induction l with
    | nil => intro s₀; simp
    | cons x rest ih =>
      intro s₀
      rw [List.foldl_cons]
      by_cases hx : x.name ∈ s₀
      · rw [if_pos hx, ih]
        constructor
        · rintro (h | h)
          · exact Or.inl h
          · exact Or.inr (by simp [h])
        · rintro (h | h)
          · exact Or.inl h
          · rw [List.map_cons, List.mem_cons] at h
            rcases h with h | h
            · exact Or.inl (h ▸ hx)
            · exact Or.inr h
      · rw [if_neg hx, ih]
        simp [List.mem_append, or_assoc]
  rw [orderedNames, key]
  simp

/-- Membership in a canonicalized category list: the name survived and the
dict maps it to exactly this instance. -/
theorem mem_filterMapCanon (ts : List TaskDatasetTypes) (names : List String) (d : DatasetType) :
    d ∈ names.filterMap (alistFind? (allDatasetTypes ts))
      ↔ d.name ∈ names ∧ alistFind? (allDatasetTypes ts) d.name = some d := by
  rw [List.mem_filterMap]
  constructor
  · rintro ⟨n, hn, hf⟩
    have hname := allDatasetTypes_name hf
    subst hname
    exact ⟨hn, hf⟩
  · rintro ⟨h1, h2⟩
    exact ⟨d.name, h1, h2⟩

theorem name_mem_domain (ts : List TaskDatasetTypes) (n : String)
    (sel : TaskDatasetTypes → List DatasetType)
    (hsub : ∀ t : TaskDatasetTypes, ∀ d ∈ sel t, d ∈ taskAllTypes t)
    (h : n ∈ ((ts.map sel).flatten).map DatasetType.name) :
    (alistFind? (allDatasetTypes ts) n).isSome := by
  rw [allDatasetTypes_isSome]
  rw [List.mem_map] at h ⊢
  obtain ⟨d, hd, hn⟩ := h
  refine ⟨d, ?_, hn⟩
  rw [List.mem_flatten] at hd ⊢
  obtain ⟨l, hl, hdl⟩ := hd
  rw [List.mem_map] at hl
  obtain ⟨t, ht, rfl⟩ := hl
  exact ⟨taskAllTypes t, List.mem_map.mpr ⟨t, ht, rfl⟩, hsub t d hdl⟩

theorem full_inputs_eq (ts : List TaskDatasetTypes) :
    (_makeFullIODatasetTypes ts).inputs
      = ((orderedNames ((ts.map (·.inputs)).flatten)).filter
            (fun n => decide (n ∉ orderedNames ((ts.map (·.outputs)).flatten)))).filterMap
          (alistFind? (allDatasetTypes ts)) := rfl

theorem full_outputs_eq (ts : List TaskDatasetTypes) :
    (_makeFullIODatasetTypes ts).outputs
      = (orderedNames ((ts.map (·.outputs)).flatten)).filterMap
          (alistFind? (allDatasetTypes ts)) := rfl

theorem full_initInputs_eq (ts : List TaskDatasetTypes) :
    (_makeFullIODatasetTypes ts).initInputs
      = ((orderedNames ((ts.map (·.initInputs)).flatten)).filter
            (fun n => decide (n ∉ orderedNames ((ts.map (·.initOutputs)).flatten)))).filterMap
          (alistFind? (allDatasetTypes ts)) := rfl

theorem full_initOutputs_eq (ts : List TaskDatasetTypes) :
    (_makeFullIODatasetTypes ts).initOutputs
      = (orderedNames ((ts.map (·.initOutputs)).flatten)).filterMap
          (alistFind? (allDatasetTypes ts)) := rfl

theorem hdom_of_sel (ts : List TaskDatasetTypes) (sel : TaskDatasetTypes → List DatasetType)
    (hsub : ∀ t : TaskDatasetTypes, ∀ d ∈ sel t, d ∈ taskAllTypes t) :
    ∀ x ∈ orderedNames ((ts.map sel).flatten), (alistFind? (allDatasetTypes ts) x).isSome := by
  intro x hx
  exact name_mem_domain ts x sel hsub ((mem_orderedNames _ x).mp hx)

theorem map_name_filterMapCanon (ts : List TaskDatasetTypes) (names : List String)
    (hdom : ∀ x ∈ names, (alistFind? (allDatasetTypes ts) x).isSome) (x : String) :
    x ∈ (names.filterMap (alistFind? (allDatasetTypes ts))).map DatasetType.name
      ↔ x ∈ names := by
  rw [List.mem_map]
  constructor
  · rintro ⟨d, hd, rfl⟩
    exact ((mem_filterMapCanon ts names d).mp hd).1
  · intro hx
    obtain ⟨d, hd⟩ := Option.isSome_iff_exists.mp (hdom x hx)
    have hname := allDatasetTypes_name hd
    exact ⟨d, (mem_filterMapCanon ts names d).mpr ⟨hname.symm ▸ hx, hname.symm ▸ hd⟩, hname⟩

/-- C3: the global reduction computes `globalInputs` as the union of all
tasks' input type names minus the union of all tasks' output type names,
`globalInitInputs` as the union of init-input names minus the union of
init-output names, and `globalOutputs` / `globalInitOutputs` as the plain
unions; consequently `globalInputs ∩ globalOutputs = ∅` and
`globalInitInputs ∩ globalInitOutputs = ∅` for every pipeline. -/
theorem claim_C3_global_reduction (ts : List TaskDatasetTypes) :
    (((_makeFullIODatasetTypes ts).inputs.map DatasetType.name).toFinset
        = ((((ts.map (·.inputs)).flatten).map DatasetType.name).toFinset
            \ (((ts.map (·.outputs)).flatten).map DatasetType.name).toFinset))
  ∧ (((_makeFullIODatasetTypes ts).outputs.map DatasetType.name).toFinset
        = (((ts.map (·.outputs)).flatten).map DatasetType.name).toFinset)
  ∧ (((_makeFullIODatasetTypes ts).initInputs.map DatasetType.name).toFinset
        = ((((ts.map (·.initInputs)).flatten).map DatasetType.name).toFinset
            \ (((ts.map (·.initOutputs)).flatten).map DatasetType.name).toFinset))
  ∧ (((_makeFullIODatasetTypes ts).initOutputs.map DatasetType.name).toFinset
        = (((ts.map (·.initOutputs)).flatten).map DatasetType.name).toFinset)
  ∧ (∀ d ∈ (_makeFullIODatasetTypes ts).inputs, d ∉ (_makeFullIODatasetTypes ts).outputs)
  ∧ (∀ d ∈ (_makeFullIODatasetTypes ts).initInputs,
        d ∉ (_makeFullIODatasetTypes ts).initOutputs) := by
  have hdomIn := hdom_of_sel ts (·.inputs) (by intro t d hd; simp [taskAllTypes, hd])
  have hdomOut := hdom_of_sel ts (·.outputs) (by intro t d hd; simp [taskAllTypes, hd])
  have hdomII := hdom_of_sel ts (·.initInputs) (by intro t d hd; simp [taskAllTypes, hd])
  have hdomIO := hdom_of_sel ts (·.initOutputs) (by intro t d hd; simp [taskAllTypes, hd])
  have hdomInF : ∀ x ∈ (orderedNames ((ts.map (·.inputs)).flatten)).filter
      (fun n => decide (n ∉ orderedNames ((ts.map (·.outputs)).flatten))),
      (alistFind? (allDatasetTypes ts) x).isSome :=
    fun x hx => hdomIn x (List.mem_of_mem_filter hx)
  have hdomIIF : ∀ x ∈ (orderedNames ((ts.map (·.initInputs)).flatten)).filter
      (fun n => decide (n ∉ orderedNames ((ts.map (·.initOutputs)).flatten))),
      (alistFind? (allDatasetTypes ts) x).isSome :=
    fun x hx => hdomII x (List.mem_of_mem_filter hx)
  refine ⟨?_, ?_, ?_, ?_, ?_, ?_⟩
  · ext x
    rw [List.mem_toFinset, full_inputs_eq, map_name_filterMapCanon ts _ hdomInF,
      List.mem_filter, Finset.mem_sdiff, List.mem_toFinset, List.mem_toFinset,
      ← mem_orderedNames, ← mem_orderedNames]
    simp
  · ext x
    rw [List.mem_toFinset, full_outputs_eq, map_name_filterMapCanon ts _ hdomOut,
      List.mem_toFinset, ← mem_orderedNames]
  · ext x
    rw [List.mem_toFinset, full_initInputs_eq, map_name_filterMapCanon ts _ hdomIIF,
      List.mem_filter, Finset.mem_sdiff, List.mem_toFinset, List.mem_toFinset,
      ← mem_orderedNames, ← mem_orderedNames]
    simp
  · ext x
    rw [List.mem_toFinset, full_initOutputs_eq, map_name_filterMapCanon ts _ hdomIO,
      List.mem_toFinset, ← mem_orderedNames]
  · intro d hd hd'
    rw [full_inputs_eq, mem_filterMapCanon] at hd
    rw [full_outputs_eq, mem_filterMapCanon] at hd'
    have h1 := List.mem_filter.mp hd.1
    have h2 := hd'.1
    rw [decide_eq_true_eq] at h1
    exact h1.2 h2
  · intro d hd hd'
    rw [full_initInputs_eq, mem_filterMapCanon] at hd
    rw [full_initOutputs_eq, mem_filterMapCanon] at hd'
    have h1 := List.mem_filter.mp hd.1
    have h2 := hd'.1
    rw [decide_eq_true_eq] at h1
    exact h1.2 h2

/-- C4 counterexample: two tasks declare a `DatasetType` named `"a"` with
different dimension sets.  The canonical table keeps the instance declared
by the *second* task (`["y"]`), not the first-seen one (`["x"]`): the claim
that "the first occurrence of a name wins" is false on the code
(`allDatasetTypes[dsType.name] = dsType` overwrites). -/
theorem claim_C4_counterexample :
    (_makeFullIODatasetTypes
        [⟨⟨"t1", "T1", some "C1", ⟨⟨[]⟩⟩⟩, [⟨"a", ["x"]⟩], [], [], []⟩,
         ⟨⟨"t2", "T2", some "C2", ⟨⟨[]⟩⟩⟩, [⟨"a", ["y"]⟩], [], [], []⟩]).inputs
      = [⟨"a", ["y"]⟩]
  ∧ (⟨"a", ["x"]⟩ : DatasetType)
      ∉ (_makeFullIODatasetTypes
          [⟨⟨"t1", "T1", some "C1", ⟨⟨[]⟩⟩⟩, [⟨"a", ["x"]⟩], [], [], []⟩,
           ⟨⟨"t2", "T2", some "C2", ⟨⟨[]⟩⟩⟩, [⟨"a", ["y"]⟩], [], [], []⟩]).inputs
  ∧ (⟨"a", ["x"]⟩ : DatasetType) ≠ (⟨"a", ["y"]⟩ : DatasetType) := by
  decide

/-- C4 (amended): when two or more tasks declare a `DatasetType` with the
same name, the name→DatasetType canonical table maps each name to the
*last* occurrence of that name (tasks in declaration order, and within one
task the categories inputs, outputs, init-inputs, init-outputs in that
order), and the four returned sets contain that last-seen canonical
instance for each surviving name. -/
theorem claim_C4_last_occurrence_wins (ts : List TaskDatasetTypes) (n : String) :
    (alistFind? (allDatasetTypes ts) n
        = ((ts.map taskAllTypes).flatten).reverse.find? (fun d => decide (d.name = n)))
  ∧ (∀ d ∈ (_makeFullIODatasetTypes ts).inputs,
        alistFind? (allDatasetTypes ts) d.name = some d)
  ∧ (∀ d ∈ (_makeFullIODatasetTypes ts).outputs,
        alistFind? (allDatasetTypes ts) d.name = some d)
  ∧ (∀ d ∈ (_makeFullIODatasetTypes ts).initInputs,
        alistFind? (allDatasetTypes ts) d.name = some d)
  ∧ (∀ d ∈ (_makeFullIODatasetTypes ts).initOutputs,
        alistFind? (allDatasetTypes ts) d.name = some d) := by
  refine ⟨?_, ?_, ?_, ?_, ?_⟩
  · rw [allDatasetTypes, alistFind?_foldAssign]
    simp [alistFind?_nil]
  · intro d hd
    rw [full_inputs_eq, mem_filterMapCanon] at hd
    exact hd.2
  · intro d hd
    rw [full_outputs_eq, mem_filterMapCanon] at hd
    exact hd.2
  · intro d hd
    rw [full_initInputs_eq, mem_filterMapCanon] at hd
    exact hd.2
  · intro d hd
    rw [full_initOutputs_eq, mem_filterMapCanon] at hd
    exact hd.2

/-- C8: task-class resolution is idempotent and non-mutating.  A `TaskDef`
whose class is already resolved is returned unchanged; an unresolved one
yields an updated copy with the class and the fully-qualified name set and
every other field preserved (the embedding is pure, reflecting that the
source copies the `TaskDef` via `copy.copy` instead of mutating the
caller's pipeline object); resolving twice equals resolving once. -/
theorem claim_C8_loadTaskClass (tf : String → String × String) (td : TaskDef) :
    (td.taskClass.isSome = true → _loadTaskClass tf td = td)
  ∧ (td.taskClass = none →
      _loadTaskClass tf td
        = { label := td.label, taskName := (tf td.taskName).2,
            taskClass := some (tf td.taskName).1, config := td.config })
  ∧ _loadTaskClass tf (_loadTaskClass tf td) = _loadTaskClass tf td := by
  refine ⟨?_, ?_, ?_⟩ <;> cases h : td.taskClass <;> simp_all [_loadTaskClass]

/-- Concrete instantiation of `claim_C8_loadTaskClass`. -/
theorem claim_C8_witness :
    (_loadTaskClass (fun n => ("class:" ++ n, "full." ++ n)) ⟨"l", "N", some "C", ⟨⟨[]⟩⟩⟩
        = ⟨"l", "N", some "C", ⟨⟨[]⟩⟩⟩)
  ∧ (_loadTaskClass (fun n => ("class:" ++ n, "full." ++ n)) ⟨"l", "N", none, ⟨⟨[]⟩⟩⟩
        = ⟨"l", "full.N", some "class:N", ⟨⟨[]⟩⟩⟩) :=
  ⟨(claim_C8_loadTaskClass (fun n => ("class:" ++ n, "full." ++ n))
      ⟨"l", "N", some "C", ⟨⟨[]⟩⟩⟩).1 rfl,
   (claim_C8_loadTaskClass (fun n => ("class:" ++ n, "full." ++ n))
      ⟨"l", "N", none, ⟨⟨[]⟩⟩⟩).2.1 rfl⟩

/-! ### External collaborators of `GraphBuilder._makeGraph`

`originInfo`, the registry/catalog (dimension universe, `selectDimensions`,
`find`), the expression parser (`ParserYacc`, out of scope of the
repository) and the class-level dataset-type getters are modelled as
function-valued parameters bundled with the builder's own configuration. -/

/-- `DatasetOriginInfo`: per dataset-type name, the priority-ordered input
collections. -/
structure OriginInfo where
  getInputCollections : String → List String

/-- The catalog collaborator (`lsst.daf.butler.Registry`) surface used by the
graph builder. -/
structure Registry where
  dimensions : String → List String
  selectDimensions : OriginInfo → Option String → List DatasetType → List DatasetType →
    List DimensionRow
  find : String → DatasetType → Option DatasetRef

/-- The graph builder (constructor, lines 104-108) together with its external
collaborators: `parse` models `ParserYacc().parse` (a parse tree is modelled
by its string rendering, `none` standing for Python `None`), and
`getDatasetTypes` models the four reflective `get*DatasetTypes` class
getters of lines 190-193. -/
structure GraphBuilder where
  taskFactory : String → String × String
  registry : Registry
  skipExisting : Bool
  parse : String → Except String (Option String)
  getDatasetTypes : String → TaskConfig → FullDatasetTypes

/-- Observable catalog traffic of one `makeGraph` call: the claims about
"zero catalog queries issued" / "before any row materialization" are about
whether and when `registry.selectDimensions` is called, so the model
returns the ordered list of issued queries next to the result. -/
inductive Event where
  | selectDimensions (expr : Option String)
deriving DecidableEq

/-- `GraphBuilder._parseUserQuery` (lines 110-130): parser failure is wrapped
into `UserExpressionError` carrying the expression and the diagnostic. -/
def _parseUserQuery (parse : String → Except String (Option String)) (userQuery : String) :
    Except BuildError (Option String) :=
  match parse userQuery with
  | .ok tree => .ok tree
  | .error exc => .error (.userExpression userQuery exc)

/-! ### The per-task grouping passes (lines 300-361) -/

/-- A grouping key, `tuple((col, row.dataId[col]) for col in qlinks)`
(line 312), and also the type of `_dataRefKey` results. -/
abbrev QKey := List (String × Int)

/-- Per-dataset-type deduplication dict, dedup key → `DatasetRef`
(lines 320-322, 327-329). -/
abbrev DedupMap := List (QKey × DatasetRef)

/-- The dict dataset type → dedup dict accumulated for one grouping key. -/
abbrev TypeMap := List (DatasetType × DedupMap)

/-- `taskQuantaInputs` / `taskQuantaOutputs` (lines 301-302): grouping key →
per-type dedup dicts. -/
abbrev QuantaMap := List (QKey × TypeMap)

/-- `qlinks` (lines 303-306): the concatenation of the link columns of every
declared quantum dimension. -/
def qlinks (dims : String → List String) (td : TaskDef) : List String :=
  (td.config.quantum.dimensions.map dims).flatten

/-- The grouping key of one row (line 312); a column missing from
`row.dataId` is a Python `KeyError`. -/
def qkeyOf (links : List String) (row : DimensionRow) : Except BuildError QKey :=
  links.mapM (fun col =>
    match alistFind? row.dataId col with
    | some v => Except.ok (col, v)
    | none => Except.error BuildError.keyError)

/-- The inner per-dataset-type loops of lines 318-330: for each type, fetch
`row.datasetRefs[dsType]` and store it under its dedup key,
`dataRefs[_dataRefKey(dataRef)] = dataRef`. -/
def addRefs (types : List DatasetType) (row : DimensionRow) (m : TypeMap) :
    Except BuildError TypeMap :=
  match types with
  | [] => .ok m
  | dsType :: rest =>
    match alistFind? row.datasetRefs dsType with
    | none => .error .keyError
    | some dataRef =>
      let dataRefs := (alistFind? m dsType).getD []
      addRefs rest row (alistSet m dsType (alistSet dataRefs (dataRefKey dataRef) dataRef))

/-- One buffered row folded into the two per-task dicts (lines 311-330):
`setdefault` the grouping key on each side, then accumulate the input and
output references. -/
def groupRow (links : List String) (inTypes outTypes : List DatasetType)
    (acc : QuantaMap × QuantaMap) (row : DimensionRow) :
    Except BuildError (QuantaMap × QuantaMap) :=
  match qkeyOf links row with
  | .error e => .error e
  | .ok qkey =>
    match addRefs inTypes row ((alistFind? acc.1 qkey).getD []) with
    | .error e => .error e
    | .ok qinputs =>
      match addRefs outTypes row ((alistFind? acc.2 qkey).getD []) with
      | .error e => .error e
      | .ok qoutputs =>
        .ok (alistSet acc.1 qkey qinputs, alistSet acc.2 qkey qoutputs)

/-- The full pass of the buffered rows for one task (the
`for row in dimensionVerse` loop). -/
def groupRows (links : List String) (inTypes outTypes : List DatasetType) :
    QuantaMap × QuantaMap → List DimensionRow → Except BuildError (QuantaMap × QuantaMap)
  | acc, [] => .ok acc
  | acc, row :: rest =>
    match groupRow links inTypes outTypes acc row with
    | .error e => .error e
    | .ok acc' => groupRows links inTypes outTypes acc' rest

/-- `list(chain.from_iterable(dataRefs.values() for dataRefs in d.values()))`
(lines 340-341), also used to flatten the inputs in lines 354-356. -/
def flattenTypeMap (m : TypeMap) : List DatasetRef :=
  (m.map (fun p => p.2.map Prod.snd)).flatten

/-- A quantum assembled in lines 337-357: all candidate outputs added via
`addOutput`, then all accumulated inputs via `addPredictedInput`. -/
def mkQuantum (qinputs : TypeMap) (outs : List DatasetRef) : Quantum :=
  { predictedInputs := flattenTypeMap qinputs, outputs := outs }

/-- The `for qkey in taskQuantaInputs` loop (lines 333-359): per grouping
key, flatten the candidate outputs, skip the quantum when `skipExisting`
and all outputs already exist, raise `OutputExistsError` when any output
exists, and otherwise emit the quantum. -/
def buildQuanta (skipExisting : Bool) (taskName : String) (tout : QuantaMap) :
    QuantaMap → Except BuildError (List Quantum)
  | [] => .ok []
  | (qkey, qinputs) :: rest =>
    match alistFind? tout qkey with
    | none => .error .keyError
    | some qout =>
      let outs := flattenTypeMap qout
      if skipExisting && outs.all (fun ref => ref.id.isSome) then
        buildQuanta skipExisting taskName tout rest
      else if outs.any (fun ref => ref.id.isSome) then
        .error (.outputExists taskName outs)
      else
        (buildQuanta skipExisting taskName tout rest).map
          (fun quanta => mkQuantum qinputs outs :: quanta)

/-- The whole per-task body of the `for taskDss in taskDatasets` loop
(lines 300-361), producing this task's `QuantumGraphTaskNodes`. -/
def taskNodes (skipExisting : Bool) (dims : String → List String)
    (rows : List DimensionRow) (taskDss : TaskDatasetTypes) :
    Except BuildError QuantumGraphTaskNodes :=
  match groupRows (qlinks dims taskDss.taskDef) taskDss.inputs taskDss.outputs
      ([], []) rows with
  | .error e => .error e
  | .ok (tin, tout) =>
    match buildQuanta skipExisting taskDss.taskDef.taskName tout tin with
    | .error e => .error e
    | .ok quanta => .ok ⟨taskDss.taskDef, quanta⟩

/-- The `for collection in originInfo.getInputCollections(...)` search with
`break` on the first hit (lines 289-293). -/
def findFirst (find : String → DatasetType → Option DatasetRef) :
    List String → DatasetType → Option DatasetRef
  | [], _ => none
  | c :: rest, dsType =>
    match find c dsType with
    | some r => some r
    | none => findFirst find rest dsType

/-- Lines 288-296: resolve each global init-input to the first match in
priority collection order; the for-else raises `GraphBuilderError` naming
the missing dataset type. -/
def resolveInitInputs (find : String → DatasetType → Option DatasetRef)
    (originInfo : OriginInfo) : List DatasetType → Except BuildError (List DatasetRef)
  | [] => .ok []
  | dsType :: rest =>
    match findFirst find (originInfo.getInputCollections dsType.name) dsType with
    | some r => (resolveInitInputs find originInfo rest).map (fun refs => r :: refs)
    | none => .error (.graphBuilder
        ("Could not find initInput " ++ dsType.name ++ " in any input collection"))

/-- The outer `for taskDss in taskDatasets` loop (lines 300-361): one
`QuantumGraphTaskNodes` appended per task, in pipeline order; any per-task
error aborts the loop. -/
def buildTaskNodes (skipExisting : Bool) (dims : String → List String)
    (rows : List DimensionRow) : List TaskDatasetTypes →
    Except BuildError (List QuantumGraphTaskNodes)
  | [] => .ok []
  | t :: rest =>
    match taskNodes skipExisting dims rows t with
    | .error e => .error e
    | .ok node =>
      match buildTaskNodes skipExisting dims rows rest with
      | .error e => .error e
      | .ok nodes => .ok (node :: nodes)

/-- `GraphBuilder._makeGraph` (lines 247-363): parse the user query
(`userQuery or ""`), issue and buffer the catalog join query, resolve the
global init-inputs and init-outputs (`DatasetRef(dsType, {})`, line 298),
then assemble the per-task quanta.  `expr = None if parsedQuery is None
else str(parsedQuery)` is the identity here because a parse tree is
modelled by its rendered string.  The first component records the catalog
queries issued during the call. -/
def _makeGraph (gb : GraphBuilder) (taskDatasets : List TaskDatasetTypes)
    (inputs outputs initInputs initOutputs : List DatasetType)
    (originInfo : OriginInfo) (userQuery : Option String) :
    List Event × Except BuildError QuantumGraph :=
  match _parseUserQuery gb.parse (userQuery.getD "") with
  | .error e => ([], .error e)
  | .ok parsedQuery =>
    let expr := parsedQuery
    let rows := gb.registry.selectDimensions originInfo expr inputs outputs
    ([Event.selectDimensions expr],
      match resolveInitInputs gb.registry.find originInfo initInputs with
      | .error e => .error e
      | .ok initInputRefs =>
        match buildTaskNodes gb.skipExisting gb.registry.dimensions rows taskDatasets with
        | .error e => .error e
        | .ok nodes =>
          .ok { inputDatasetTypes := inputs, outputDatasetTypes := outputs,
                initInputs := initInputRefs,
                initOutputs := initOutputs.map (fun dsType => DatasetRef.mk dsType [] none),
                tasks := nodes })

/-- Lines 186-194: collect the four dataset-type lists of one (loaded) task
through the class-level getters. -/
def collectTaskDatasets (gb : GraphBuilder) (taskDef : TaskDef) : TaskDatasetTypes :=
  let io := gb.getDatasetTypes (taskDef.taskClass.getD "") taskDef.config
  { taskDef := taskDef, inputs := io.inputs, outputs := io.outputs,
    initInputs := io.initInputs, initOutputs := io.initOutputs }

/-- `GraphBuilder.makeGraph` (lines 154-201): load task classes, collect
dataset types, reduce the global sets, and build the graph. -/
def makeGraph (gb : GraphBuilder) (pipeline : List TaskDef) (originInfo : OriginInfo)
    (userQuery : Option String) : List Event × Except BuildError QuantumGraph :=
  let taskList := pipeline.map (_loadTaskClass gb.taskFactory)
  let taskDatasets := taskList.map (collectTaskDatasets gb)
  let full := _makeFullIODatasetTypes taskDatasets
  _makeGraph gb taskDatasets full.inputs full.outputs full.initInputs full.initOutputs
    originInfo userQuery

/-! ### C1: the output-existence policy -/

theorem all_of_any_false {l : List DatasetRef} (hne : l ≠ [])
    (hany : l.any (fun ref => ref.id.isSome) = false) :
    l.all (fun ref => ref.id.isSome) = false := by
  cases l with
  | nil => exact absurd rfl hne
  | cons x xs =>
    rw [List.any_cons, Bool.or_eq_false_iff] at hany
    rw [List.all_cons, hany.1, Bool.false_and]

/-- C1: for every grouping key whose candidate output set is non-empty, the
output-existence policy of lines 344-351 follows the four-cell table: with
`skipExisting = true` a key whose outputs all already exist is silently
dropped and the remaining keys are still processed; partial existence
raises `OutputExistsError` (with the task name and the candidate outputs)
even under `skipExisting = true`; with `skipExisting = false` any existing
output raises; a key with no existing output always proceeds and emits its
quantum.  The final conjunct shows that a per-task error — in particular
`OutputExistsError` — is the value of the whole `_makeGraph` call: the
error is fatal, no graph is returned. -/
theorem claim_C1_existence_policy (taskName : String) (tout : QuantaMap) (qkey : QKey)
    (qinputs qout : TypeMap) (rest : QuantaMap)
    (hfind : alistFind? tout qkey = some qout)
    (hne : flattenTypeMap qout ≠ []) :
    ((flattenTypeMap qout).all (fun ref => ref.id.isSome) = true →
        buildQuanta true taskName tout ((qkey, qinputs) :: rest)
          = buildQuanta true taskName tout rest)
  ∧ ((flattenTypeMap qout).any (fun ref => ref.id.isSome) = true →
     (flattenTypeMap qout).all (fun ref => ref.id.isSome) = false →
        buildQuanta true taskName tout ((qkey, qinputs) :: rest)
          = .error (.outputExists taskName (flattenTypeMap qout)))
  ∧ ((flattenTypeMap qout).any (fun ref => ref.id.isSome) = true →
        buildQuanta false taskName tout ((qkey, qinputs) :: rest)
          = .error (.outputExists taskName (flattenTypeMap qout)))
  ∧ ((flattenTypeMap qout).any (fun ref => ref.id.isSome) = false →
        buildQuanta true taskName tout ((qkey, qinputs) :: rest)
          = (buildQuanta true taskName tout rest).map
              (fun quanta => mkQuantum qinputs (flattenTypeMap qout) :: quanta))
  ∧ ((flattenTypeMap qout).any (fun ref => ref.id.isSome) = false →
        buildQuanta false taskName tout ((qkey, qinputs) :: rest)
          = (buildQuanta false taskName tout rest).map
              (fun quanta => mkQuantum qinputs (flattenTypeMap qout) :: quanta))
  ∧ (∀ (gb : GraphBuilder) (tds : List TaskDatasetTypes)
        (ins outs iins iouts : List DatasetType) (oi : OriginInfo) (uq : Option String)
        (pq : Option String) (refs : List DatasetRef) (e : BuildError),
        gb.parse (uq.getD "") = .ok pq →
        resolveInitInputs gb.registry.find oi iins = .ok refs →
        buildTaskNodes gb.skipExisting gb.registry.dimensions
            (gb.registry.selectDimensions oi pq ins outs) tds = .error e →
        _makeGraph gb tds ins outs iins iouts oi uq
          = ([Event.selectDimensions pq], .error e)) := by
  refine ⟨?_, ?_, ?_, ?_, ?_, ?_⟩
  · intro hall
    simp [buildQuanta, hfind, hall]
  · intro hany hall
    simp [buildQuanta, hfind, hall, hany]
  · intro hany
    simp [buildQuanta, hfind, hany]
  · intro hany
    simp [buildQuanta, hfind, hany, all_of_any_false hne hany]
  · intro hany
    simp [buildQuanta, hfind, hany]
  · intro gb tds ins outs iins iouts oi uq pq refs e hparse hresolve htasks
    simp [_makeGraph, _parseUserQuery, hparse, hresolve, htasks]

def dsC1 : DatasetType := ⟨"d", ["v"]⟩
def refExisting : DatasetRef := ⟨dsC1, [("v", 1)], some 5⟩
def refFresh : DatasetRef := ⟨dsC1, [("v", 1)], none⟩
def refFresh2 : DatasetRef := ⟨dsC1, [("v", 2)], none⟩
def qkeyC1 : QKey := [("v", 1)]
def toutAllExist : QuantaMap := [(qkeyC1, [(dsC1, [([("v", 1)], refExisting)])])]
def toutPartial : QuantaMap :=
  [(qkeyC1, [(dsC1, [([("v", 1)], refExisting), ([("v", 2)], refFresh2)])])]
def toutFresh : QuantaMap := [(qkeyC1, [(dsC1, [([("v", 1)], refFresh)])])]
def rowPartial1 : DimensionRow := ⟨[("v", 1)], [(dsC1, refExisting)]⟩
def rowPartial2 : DimensionRow := ⟨[("v", 1)], [(dsC1, refFresh2)]⟩
def tdC1 : TaskDef := ⟨"t", "Task1", some "Cls1", ⟨⟨["visit"]⟩⟩⟩
def taskC1 : TaskDatasetTypes := ⟨tdC1, [], [dsC1], [], []⟩
def gbC1 : GraphBuilder :=
  { taskFactory := fun n => (n, n),
    registry :=
      { dimensions := fun _ => ["v"],
        selectDimensions := fun _ _ _ _ => [rowPartial1, rowPartial2],
        find := fun _ _ => none },
    skipExisting := true,
    parse := fun _ => .ok none,
    getDatasetTypes := fun _ _ => ⟨[], [dsC1], [], []⟩ }

/-- Concrete instantiation of `claim_C1_existence_policy`: each table cell
exercised on a one-key map, and a partial-existence `OutputExistsError`
aborting a whole `_makeGraph` call. -/
theorem claim_C1_witness :
    (buildQuanta true "t" toutAllExist [(qkeyC1, [])]
        = buildQuanta true "t" toutAllExist [])
  ∧ (buildQuanta true "t" toutPartial [(qkeyC1, [])]
        = .error (.outputExists "t" (flattenTypeMap [(dsC1,
            [([("v", 1)], refExisting), ([("v", 2)], refFresh2)])])))
  ∧ (buildQuanta false "t" toutAllExist [(qkeyC1, [])]
        = .error (.outputExists "t" (flattenTypeMap [(dsC1, [([("v", 1)], refExisting)])])))
  ∧ (buildQuanta true "t" toutFresh [(qkeyC1, [])]
        = (buildQuanta true "t" toutFresh []).map
            (fun quanta => mkQuantum [] (flattenTypeMap [(dsC1, [([("v", 1)], refFresh)])])
              :: quanta))
  ∧ (buildQuanta false "t" toutFresh [(qkeyC1, [])]
        = (buildQuanta false "t" toutFresh []).map
            (fun quanta => mkQuantum [] (flattenTypeMap [(dsC1, [([("v", 1)], refFresh)])])
              :: quanta))
  ∧ (_makeGraph gbC1 [taskC1] [] [dsC1] [] [] ⟨fun _ => []⟩ none
        = ([Event.selectDimensions none],
           .error (.outputExists "Task1" [refExisting, refFresh2]))) :=
  ⟨(claim_C1_existence_policy "t" toutAllExist qkeyC1 []
        [(dsC1, [([("v", 1)], refExisting)])] [] (by decide) (by decide)).1 (by decide),
   (claim_C1_existence_policy "t" toutPartial qkeyC1 []
        [(dsC1, [([("v", 1)], refExisting), ([("v", 2)], refFresh2)])] [] (by decide)
        (by decide)).2.1 (by decide) (by decide),
   (claim_C1_existence_policy "t" toutAllExist qkeyC1 []
        [(dsC1, [([("v", 1)], refExisting)])] [] (by decide) (by decide)).2.2.1 (by decide),
   (claim_C1_existence_policy "t" toutFresh qkeyC1 []
        [(dsC1, [([("v", 1)], refFresh)])] [] (by decide) (by decide)).2.2.2.1 (by decide),
   (claim_C1_existence_policy "t" toutFresh qkeyC1 []
        [(dsC1, [([("v", 1)], refFresh)])] [] (by decide) (by decide)).2.2.2.2.1 (by decide),
   (claim_C1_existence_policy "t" toutFresh qkeyC1 []
        [(dsC1, [([("v", 1)], refFresh)])] [] (by decide)
        (by decide)).2.2.2.2.2 gbC1 [taskC1] [] [dsC1] [] [] ⟨fun _ => []⟩ none none []
      (.outputExists "Task1" [refExisting, refFresh2]) (by decide) (by decide) (by decide)⟩

/-! ### C7: selection compilation; C2: init-input resolution -/

/-- C7: selection compilation.  Under the collaborator contract that the
external parser maps the empty string to `None` (the source hands
`userQuery or ""` to `ParserYacc`, which yields no tree for an empty
expression), an absent (`none`) or empty user query leads to the catalog
query being issued with the trivial always-true predicate `none`; a
non-empty string is handed to the parser and its tree becomes the query
restriction; and if the parser fails, `makeGraph` returns
`UserExpressionError` carrying the original string and the parser
diagnostic, with zero catalog queries issued (the event trace is empty). -/
theorem claim_C7_selection_compilation (gb : GraphBuilder) (pipeline : List TaskDef)
    (oi : OriginInfo) :
    (gb.parse "" = .ok none →
        ((makeGraph gb pipeline oi none).1 = [Event.selectDimensions none]
          ∧ (makeGraph gb pipeline oi (some "")).1 = [Event.selectDimensions none]))
  ∧ (∀ q pq, gb.parse q = .ok pq →
        (makeGraph gb pipeline oi (some q)).1 = [Event.selectDimensions pq])
  ∧ (∀ q d, gb.parse q = .error d →
        makeGraph gb pipeline oi (some q)
          = ([], .error (.userExpression q d))) := by
  refine ⟨fun hempty => ⟨?_, ?_⟩, fun q pq hq => ?_, fun q d hq => ?_⟩
  · simp [makeGraph, _makeGraph, _parseUserQuery, hempty]
  · simp [makeGraph, _makeGraph, _parseUserQuery, hempty]
  · simp [makeGraph, _makeGraph, _parseUserQuery, hq]
  · simp [makeGraph, _makeGraph, _parseUserQuery, hq]

def oiC7 : OriginInfo := ⟨fun _ => []⟩
def gbC7 : GraphBuilder :=
  { taskFactory := fun n => (n, n),
    registry :=
      { dimensions := fun _ => [],
        selectDimensions := fun _ _ _ _ => [],
        find := fun _ _ => none },
    skipExisting := true,
    parse := fun s =>
      if s = "" then .ok none
      else if s = "visit = )" then .error "syntax error" else .ok (some s),
    getDatasetTypes := fun _ _ => ⟨[], [], [], []⟩ }

/-- Concrete instantiation of `claim_C7_selection_compilation`: an absent
query issues one unrestricted catalog query, and a malformed query is
rejected before any catalog query. -/
theorem claim_C7_witness :
    (makeGraph gbC7 [] oiC7 none).1 = [Event.selectDimensions none]
  ∧ makeGraph gbC7 [] oiC7 (some "visit = )")
      = ([], .error (.userExpression "visit = )" "syntax error")) :=
  ⟨((claim_C7_selection_compilation gbC7 [] oiC7).1 (by decide)).1,
   (claim_C7_selection_compilation gbC7 [] oiC7).2.2 "visit = )" "syntax error" (by decide)⟩

/-- C2 counterexample: a pipeline whose only global init-input is found in
no input collection.  `makeGraph` does raise `GraphBuilderError` naming the
type, but only *after* the `selectDimensions` catalog join query has been
issued and its rows buffered: the event trace of the failing call contains
the catalog query, refuting the claim that the error precedes any row
materialization (the source resolves init-inputs in lines 288-296, after
the query and buffering of lines 275-282). -/
theorem claim_C2_counterexample :
    makeGraph
        { taskFactory := fun n => (n, n),
          registry :=
            { dimensions := fun _ => [],
              selectDimensions := fun _ _ _ _ => [],
              find := fun _ _ => none },
          skipExisting := true,
          parse := fun _ => .ok none,
          getDatasetTypes := fun _ _ => ⟨[], [], [⟨"init_a", []⟩], []⟩ }
        [⟨"t", "T", some "C", ⟨⟨[]⟩⟩⟩] ⟨fun _ => ["coll1"]⟩ none
      = ([Event.selectDimensions none],
         .error (.graphBuilder "Could not find initInput init_a in any input collection"))
  ∧ (makeGraph
        { taskFactory := fun n => (n, n),
          registry :=
            { dimensions := fun _ => [],
              selectDimensions := fun _ _ _ _ => [],
              find := fun _ _ => none },
          skipExisting := true,
          parse := fun _ => .ok none,
          getDatasetTypes := fun _ _ => ⟨[], [], [⟨"init_a", []⟩], []⟩ }
        [⟨"t", "T", some "C", ⟨⟨[]⟩⟩⟩] ⟨fun _ => ["coll1"]⟩ none).1 ≠ [] := by
  decide

/-- C2 (amended): for every pipeline whose global init-inputs contain a
type found in none of the origin's input collections, `_makeGraph` returns
`GraphBuilderError` naming the first such dataset type — but only after the
`selectDimensions` catalog join query has been issued (the failing call's
event trace is exactly the issued query); when matches exist, the first
match in priority collection order is the one recorded as the init-input
of the returned graph. -/
theorem claim_C2_initInput_resolution (gb : GraphBuilder)
    (tds : List TaskDatasetTypes) (ins outs iins iouts : List DatasetType)
    (oi : OriginInfo) (uq : Option String) (pq : Option String)
    (hparse : gb.parse (uq.getD "") = .ok pq) :
    (∀ e, resolveInitInputs gb.registry.find oi iins = .error e →
        _makeGraph gb tds ins outs iins iouts oi uq
          = ([Event.selectDimensions pq], .error e))
  ∧ (∀ pre dsType post, iins = pre ++ dsType :: post →
        (∀ T ∈ pre, (findFirst gb.registry.find (oi.getInputCollections T.name) T).isSome) →
        findFirst gb.registry.find (oi.getInputCollections dsType.name) dsType = none →
        resolveInitInputs gb.registry.find oi iins
          = .error (.graphBuilder
              ("Could not find initInput " ++ dsType.name ++ " in any input collection")))
  ∧ (∀ cols pre c post dsType r, cols = pre ++ c :: post →
        (∀ c' ∈ pre, gb.registry.find c' dsType = none) →
        gb.registry.find c dsType = some r →
        findFirst gb.registry.find cols dsType = some r)
  ∧ (∀ trace g, _makeGraph gb tds ins outs iins iouts oi uq = (trace, .ok g) →
        resolveInitInputs gb.registry.find oi iins = .ok g.initInputs) := by
  refine ⟨?_, ?_, ?_, ?_⟩
  · intro e he
    simp [_makeGraph, _parseUserQuery, hparse, he]
  · intro pre dsType post hsplit hpre hmiss
    subst hsplit
    induction pre with
    | nil =>
      simp [resolveInitInputs, hmiss]
    | cons T' pre' ih =>
      have hT' := hpre T' (List.mem_cons_self T' pre')
      obtain ⟨r, hr⟩ := Option.isSome_iff_exists.mp hT'
      rw [List.cons_append, resolveInitInputs, hr,
        ih (fun T hT => hpre T (List.mem_cons_of_mem _ hT))]
      rfl
  · intro cols pre c post dsType r hsplit hpre hc
    subst hsplit
    induction pre with
    | nil => simp [findFirst, hc]
    | cons c' pre' ih =>
      have h' := hpre c' (List.mem_cons_self c' pre')
      rw [List.cons_append, findFirst, h',
        ih (fun x hx => hpre x (List.mem_cons_of_mem _ hx))]
  · intro trace g hg
    simp only [_makeGraph, _parseUserQuery, hparse] at hg
    cases hres : resolveInitInputs gb.registry.find oi iins with
    | error e => rw [hres] at hg; simp at hg
    | ok refs =>
      rw [hres] at hg
      cases htasks : buildTaskNodes gb.skipExisting gb.registry.dimensions
          (gb.registry.selectDimensions oi pq ins outs) tds with
      | error e => rw [htasks] at hg; simp at hg
      | ok nodes =>
        rw [htasks] at hg
        simp only [Prod.mk.injEq, Except.ok.injEq] at hg
        rw [← hg.2]

def dsInitA : DatasetType := ⟨"init_a", []⟩
def dsInitB : DatasetType := ⟨"init_b", []⟩
def refInitB : DatasetRef := ⟨dsInitB, [], some 7⟩
def gbC2 : GraphBuilder :=
  { taskFactory := fun n => (n, n),
    registry :=
      { dimensions := fun _ => [],
        selectDimensions := fun _ _ _ _ => [],
        find := fun c dsType =>
          if dsType.name = "init_b" && c = "c2" then some refInitB else none },
    skipExisting := true,
    parse := fun _ => .ok none,
    getDatasetTypes := fun _ _ => ⟨[], [], [], []⟩ }
def oiC2 : OriginInfo := ⟨fun _ => ["c1", "c2"]⟩

/-- Concrete instantiation of `claim_C2_initInput_resolution`: with
init-inputs `[init_b, init_a]`, `init_b` resolves to its first match (in
collection `c2`, after `c1` misses) and the missing `init_a` turns into the
fatal `GraphBuilderError`, returned together with the already-issued
catalog query. -/
theorem claim_C2_witness :
    _makeGraph gbC2 [] [] [] [dsInitB, dsInitA] [] oiC2 none
      = ([Event.selectDimensions none],
         .error (.graphBuilder "Could not find initInput init_a in any input collection"))
  ∧ resolveInitInputs gbC2.registry.find oiC2 [dsInitB, dsInitA]
      = .error (.graphBuilder "Could not find initInput init_a in any input collection")
  ∧ findFirst gbC2.registry.find ["c1", "c2"] dsInitB = some refInitB :=
  ⟨(claim_C2_initInput_resolution gbC2 [] [] [] [dsInitB, dsInitA] [] oiC2 none none
      (by decide)).1 _ (by decide),
   (claim_C2_initInput_resolution gbC2 [] [] [] [dsInitB, dsInitA] [] oiC2 none none
      (by decide)).2.1 [dsInitB] dsInitA [] rfl (by decide) (by decide),
   (claim_C2_initInput_resolution gbC2 [] [] [] [dsInitB, dsInitA] [] oiC2 none none
      (by decide)).2.2.1 ["c1", "c2"] ["c1"] "c2" [] dsInitB refInitB rfl (by decide)
      (by decide)⟩

/-! ### Structure of successful grouping -/

theorem groupRow_eq {links : List String} {inT outT : List DatasetType}
    {acc acc' : QuantaMap × QuantaMap} {row : DimensionRow}
    (h : groupRow links inT outT acc row = .ok acc') :
    ∃ qk qi qo, qkeyOf links row = .ok qk
      ∧ addRefs inT row ((alistFind? acc.1 qk).getD []) = .ok qi
      ∧ addRefs outT row ((alistFind? acc.2 qk).getD []) = .ok qo
      ∧ acc' = (alistSet acc.1 qk qi, alistSet acc.2 qk qo) := by
  unfold groupRow at h
  cases hq : qkeyOf links row with
  | error e => simp [hq] at h
  | ok qk =>
    simp only [hq] at h
    cases hi : addRefs inT row ((alistFind? acc.1 qk).getD []) with
    | error e => simp [hi] at h
    | ok qi =>
      simp only [hi] at h
      cases ho : addRefs outT row ((alistFind? acc.2 qk).getD []) with
      | error e => simp [ho] at h
      | ok qo =>
        simp only [ho, Except.ok.injEq] at h
        exact ⟨qk, qi, qo, rfl, hi, ho, h.symm⟩

theorem groupRow_keys {links : List String} {inT outT : List DatasetType}
    {acc acc' : QuantaMap × QuantaMap} {row : DimensionRow}
    (h : groupRow links inT outT acc row = .ok acc') :
    ∃ qk, qkeyOf links row = .ok qk ∧ ∀ k,
      ((alistFind? acc'.1 k).isSome ↔ k = qk ∨ (alistFind? acc.1 k).isSome)
      ∧ ((alistFind? acc'.2 k).isSome ↔ k = qk ∨ (alistFind? acc.2 k).isSome) := by
  obtain ⟨qk, qi, qo, hq, hi, ho, rfl⟩ := groupRow_eq h
  refine ⟨qk, hq, fun k => ⟨?_, ?_⟩⟩ <;>
    simp only [alistFind?_isSome_iff, mem_keys_alistSet]

theorem groupRows_keys {links : List String} {inT outT : List DatasetType} :
    ∀ {rows : List DimensionRow} {acc p}, groupRows links inT outT acc rows = .ok p →
    ∀ k, ((alistFind? p.1 k).isSome
            ↔ (alistFind? acc.1 k).isSome ∨ ∃ row ∈ rows, qkeyOf links row = .ok k)
       ∧ ((alistFind? p.2 k).isSome
            ↔ (alistFind? acc.2 k).isSome ∨ ∃ row ∈ rows, qkeyOf links row = .ok k) := by
  intro rows
  induction rows with
  | nil =>
    intro acc p h k
    rw [groupRows] at h
    injection h with h'
    subst h'
    simp
  | cons row rest ih =>
    intro acc p h k
    rw [groupRows] at h
    cases hstep : groupRow links inT outT acc row with
    | error e => rw [hstep] at h; simp at h
    | ok acc' =>
      rw [hstep] at h
      obtain ⟨qk, hq, hkeys⟩ := groupRow_keys hstep
      have hiff : qkeyOf links row = .ok k ↔ k = qk := by
        rw [hq]
        simp [eq_comm]
      constructor
      · rw [(ih h k).1, (hkeys k).1]
        simp only [List.mem_cons]
        constructor
        · rintro ((hk | hk) | ⟨r, hr, hrk⟩)
          · exact Or.inr ⟨row, Or.inl rfl, hiff.mpr hk⟩
          · exact Or.inl hk
          · exact Or.inr ⟨r, Or.inr hr, hrk⟩
        · rintro (hk | ⟨r, (rfl | hr), hrk⟩)
          · exact Or.inl (Or.inr hk)
          · exact Or.inl (Or.inl (hiff.mp hrk))
          · exact Or.inr ⟨r, hr, hrk⟩
      · rw [(ih h k).2, (hkeys k).2]
        simp only [List.mem_cons]
        constructor
        · rintro ((hk | hk) | ⟨r, hr, hrk⟩)
          · exact Or.inr ⟨row, Or.inl rfl, hiff.mpr hk⟩
          · exact Or.inl hk
          · exact Or.inr ⟨r, Or.inr hr, hrk⟩
        · rintro (hk | ⟨r, (rfl | hr), hrk⟩)
          · exact Or.inl (Or.inr hk)
          · exact Or.inl (Or.inl (hiff.mp hrk))
          · exact Or.inr ⟨r, hr, hrk⟩

/-! ### C9: tasks with no declared outputs -/

theorem addRefs_nilTypes (row : DimensionRow) (m : TypeMap) :
    addRefs [] row m = .ok m := rfl

theorem groupRows_outEmpty {links : List String} {inT : List DatasetType} :
    ∀ {rows : List DimensionRow} {acc : QuantaMap × QuantaMap} {p},
    groupRows links inT [] acc rows = .ok p →
    (∀ q ∈ acc.2, q.2 = ([] : TypeMap)) → ∀ q ∈ p.2, q.2 = ([] : TypeMap) := by
  intro rows
  induction rows with
  | nil =>
    intro acc p h hacc
    rw [groupRows] at h
    injection h with h'
    subst h'
    exact hacc
  | cons row rest ih =>
    intro acc p h hacc
    rw [groupRows] at h
    cases hstep : groupRow links inT [] acc row with
    | error e => rw [hstep] at h; simp at h
    | ok acc' =>
      rw [hstep] at h
      refine ih h ?_
      obtain ⟨qk, qi, qo, hq, hi, ho, heq⟩ := groupRow_eq hstep
      rw [addRefs_nilTypes] at ho
      injection ho with ho'
      subst heq
      intro q hq'
      rcases mem_alistSet_elim hq' with hq' | hq'
      · subst hq'
        rw [← ho']
        cases hfind : alistFind? acc.2 qk with
        | none => rfl
        | some v =>
          exact hacc _ (alistFind?_eq_some_mem hfind)
      · exact hacc q hq'

theorem buildQuanta_allSkip {taskName : String} {tout : QuantaMap} :
    ∀ {tin : QuantaMap}, (∀ p ∈ tin, alistFind? tout p.1 = some ([] : TypeMap)) →
    buildQuanta true taskName tout tin = .ok [] := by
  intro tin
  induction tin with
  | nil => intro _; rfl
  | cons p rest ih =>
    intro hall
    obtain ⟨k, qin⟩ := p
    have hk := hall (k, qin) (List.mem_cons_self _ _)
    rw [buildQuanta, hk]
    simp only [flattenTypeMap, List.map_nil, List.flatten_nil, List.all_nil, Bool.and_true]
    exact ih (fun q hq => hall q (List.mem_cons_of_mem _ hq))

theorem buildQuanta_noSkipEmptyOuts {taskName : String} {tout : QuantaMap} :
    ∀ {tin : QuantaMap}, (∀ p ∈ tin, alistFind? tout p.1 = some ([] : TypeMap)) →
    buildQuanta false taskName tout tin
      = .ok (tin.map (fun p => mkQuantum p.2 [])) := by
  intro tin
  induction tin with
  | nil => intro _; rfl
  | cons p rest ih =>
    intro hall
    obtain ⟨k, qin⟩ := p
    have hk := hall (k, qin) (List.mem_cons_self _ _)
    rw [buildQuanta, hk]
    simp only [flattenTypeMap, List.map_nil, List.flatten_nil, List.any_nil, Bool.false_and,
      Bool.and_self, if_false, Bool.false_eq_true]
    rw [ih (fun q hq => hall q (List.mem_cons_of_mem _ hq))]
    rfl

/-- C9 (implicit edge case): a task that declares no output dataset types
has an all-outputs-exist check that is vacuously true over its empty output
sets, so with `skipExisting = true` every grouping key is silently dropped
and the task's `QuantumGraphTaskNodes` holds zero quanta even when matching
rows exist, while with `skipExisting = false` one quantum per grouping key
is built with an empty output set. -/
theorem claim_C9_no_output_task (dims : String → List String) (rows : List DimensionRow)
    (t : TaskDatasetTypes) (tin tout : QuantaMap)
    (hout : t.outputs = [])
    (hgroup : groupRows (qlinks dims t.taskDef) t.inputs t.outputs ([], []) rows
        = .ok (tin, tout)) :
    taskNodes true dims rows t = .ok ⟨t.taskDef, []⟩
  ∧ taskNodes false dims rows t = .ok ⟨t.taskDef, tin.map (fun p => mkQuantum p.2 [])⟩
  ∧ (rows ≠ [] → tin ≠ []) := by
  rw [hout] at hgroup
  have hvals : ∀ q ∈ tout, q.2 = ([] : TypeMap) :=
    groupRows_outEmpty hgroup (by intro q hq; simp at hq)
  have hloo : ∀ p ∈ tin, alistFind? tout p.1 = some ([] : TypeMap) := by
    intro p hp
    have hkin : (alistFind? tin p.1).isSome := by
      rw [alistFind?_isSome_iff]
      exact List.mem_map.mpr ⟨p, hp, rfl⟩
    have h1 := (groupRows_keys hgroup p.1).1
    have h2 := (groupRows_keys hgroup p.1).2
    rw [h1] at hkin
    have hkout : (alistFind? tout p.1).isSome := by
      rw [h2]
      rcases hkin with hk | hk
      · simp [alistFind?_nil] at hk
      · exact Or.inr hk
    obtain ⟨v, hv⟩ := Option.isSome_iff_exists.mp hkout
    rw [hv]
    exact congrArg some (hvals (p.1, v) (alistFind?_eq_some_mem hv))
  refine ⟨?_, ?_, ?_⟩
  · simp only [taskNodes, hout, hgroup, buildQuanta_allSkip hloo]
  · simp only [taskNodes, hout, hgroup, buildQuanta_noSkipEmptyOuts hloo]
  · intro hrows
    cases hrowsE : rows with
    | nil => exact absurd hrowsE hrows
    | cons row rest =>
      subst hrowsE
      rw [groupRows] at hgroup
      cases hstep : groupRow (qlinks dims t.taskDef) t.inputs [] ([], []) row with
      | error e => rw [hstep] at hgroup; simp at hgroup
      | ok acc' =>
        rw [hstep] at hgroup
        obtain ⟨qk, hq, hkeys⟩ := groupRow_keys hstep
        have hsome : (alistFind? tin qk).isSome := by
          rw [(groupRows_keys hgroup qk).1, (hkeys qk).1]
          exact Or.inl (Or.inl rfl)
        intro htin
        subst htin
        simp [alistFind?_nil] at hsome

def dsC9in : DatasetType := ⟨"raw", ["v"]⟩
def refC9in : DatasetRef := ⟨dsC9in, [("v", 1)], some 3⟩
def rowC9 : DimensionRow := ⟨[("v", 1)], [(dsC9in, refC9in)]⟩
def taskC9 : TaskDatasetTypes := ⟨⟨"t9", "T9", some "C9", ⟨⟨["visit"]⟩⟩⟩, [dsC9in], [], [], []⟩
def dimsC9 : String → List String := fun _ => ["v"]

/-- Concrete instantiation of `claim_C9_no_output_task`: one matching row,
no declared outputs — zero quanta under `skipExisting = true`, one quantum
with empty outputs under `skipExisting = false`. -/
theorem claim_C9_witness :
    taskNodes true dimsC9 [rowC9] taskC9 = .ok ⟨taskC9.taskDef, []⟩
  ∧ taskNodes false dimsC9 [rowC9] taskC9
      = .ok ⟨taskC9.taskDef,
          ([([("v", 1)], [(dsC9in, [([("v", 1)], refC9in)])])] : QuantaMap).map
            (fun p => mkQuantum p.2 [])⟩
  ∧ (([rowC9] : List DimensionRow) ≠ []
      → ([([("v", 1)], [(dsC9in, [([("v", 1)], refC9in)])])] : QuantaMap) ≠ []) :=
  ⟨(claim_C9_no_output_task dimsC9 [rowC9] taskC9
      [([("v", 1)], [(dsC9in, [([("v", 1)], refC9in)])])] [([("v", 1)], [])]
      (by decide) (by decide)).1,
   (claim_C9_no_output_task dimsC9 [rowC9] taskC9
      [([("v", 1)], [(dsC9in, [([("v", 1)], refC9in)])])] [([("v", 1)], [])]
      (by decide) (by decide)).2.1,
   (claim_C9_no_output_task dimsC9 [rowC9] taskC9
      [([("v", 1)], [(dsC9in, [([("v", 1)], refC9in)])])] [([("v", 1)], [])]
      (by decide) (by decide)).2.2⟩

/-! ### C10: no returned quantum carries an existing output -/

theorem buildQuanta_outputs_id_none {skipExisting : Bool} {taskName : String}
    {tout : QuantaMap} :
    ∀ {tin : QuantaMap} {qs : List Quantum},
    buildQuanta skipExisting taskName tout tin = .ok qs →
    ∀ q ∈ qs, ∀ r ∈ q.outputs, r.id = none := by
  intro tin
  induction tin with
  | nil =>
    intro qs h q hq
    rw [buildQuanta] at h
    injection h with h'
    subst h'
    simp at hq
  | cons p rest ih =>
    intro qs h q hq r hr
    obtain ⟨k, qin⟩ := p
    rw [buildQuanta] at h
    cases hfind : alistFind? tout k with
    | none => simp [hfind] at h
    | some qout =>
      simp only [hfind] at h
      by_cases hskip : (skipExisting
          && (flattenTypeMap qout).all (fun ref => ref.id.isSome)) = true
      · rw [if_pos hskip] at h
        exact ih h q hq r hr
      · rw [if_neg hskip] at h
        cases hany : (flattenTypeMap qout).any (fun ref => ref.id.isSome) with
        | true => rw [hany] at h; simp at h
        | false =>
          rw [hany] at h
          rw [if_neg (by simp)] at h
          cases hrest : buildQuanta skipExisting taskName tout rest with
          | error e => rw [hrest] at h; simp [Except.map] at h
          | ok qs' =>
            rw [hrest] at h
            simp only [Except.map, Except.ok.injEq] at h
            subst h
            rcases List.mem_cons.mp hq with hq | hq
            · subst hq
              simp only [mkQuantum] at hr
              have h2 := List.any_eq_false.mp hany r hr
              simpa using h2
            · exact ih hrest q hq r hr

theorem buildTaskNodes_mem {skipExisting : Bool} {dims : String → List String}
    {rows : List DimensionRow} :
    ∀ {tds : List TaskDatasetTypes} {nodes : List QuantumGraphTaskNodes},
    buildTaskNodes skipExisting dims rows tds = .ok nodes →
    ∀ node ∈ nodes, ∃ t ∈ tds, taskNodes skipExisting dims rows t = .ok node := by
  intro tds
  induction tds with
  | nil =>
    intro nodes h node hn
    rw [buildTaskNodes] at h
    injection h with h'
    subst h'
    simp at hn
  | cons t rest ih =>
    intro nodes h node hn
    rw [buildTaskNodes] at h
    cases ht : taskNodes skipExisting dims rows t with
    | error e => simp [ht] at h
    | ok node0 =>
      simp only [ht] at h
      cases hrest : buildTaskNodes skipExisting dims rows rest with
      | error e => simp [hrest] at h
      | ok nodes' =>
        simp only [hrest, Except.ok.injEq] at h
        subst h
        rcases List.mem_cons.mp hn with hn | hn
        · exact ⟨t, List.mem_cons_self _ _, by rw [hn]; exact ht⟩
        · obtain ⟨t', ht', hnode⟩ := ih hrest node hn
          exact ⟨t', List.mem_cons_of_mem _ ht', hnode⟩

theorem taskNodes_eq {skipExisting : Bool} {dims : String → List String}
    {rows : List DimensionRow} {t : TaskDatasetTypes} {node : QuantumGraphTaskNodes}
    (h : taskNodes skipExisting dims rows t = .ok node) :
    ∃ tin tout,
      groupRows (qlinks dims t.taskDef) t.inputs t.outputs ([], []) rows = .ok (tin, tout)
      ∧ buildQuanta skipExisting t.taskDef.taskName tout tin = .ok node.quanta
      ∧ node.taskDef = t.taskDef := by
  unfold taskNodes at h
  cases hg : groupRows (qlinks dims t.taskDef) t.inputs t.outputs ([], []) rows with
  | error e => simp [hg] at h
  | ok p =>
    obtain ⟨tin, tout⟩ := p
    simp only [hg] at h
    cases hb : buildQuanta skipExisting t.taskDef.taskName tout tin with
    | error e => simp [hb] at h
    | ok quanta =>
      simp only [hb, Except.ok.injEq] at h
      subst h
      exact ⟨tin, tout, rfl, hb, rfl⟩

theorem _makeGraph_tasks {gb : GraphBuilder} {tds : List TaskDatasetTypes}
    {ins outs iins iouts : List DatasetType} {oi : OriginInfo} {uq : Option String}
    {trace : List Event} {g : QuantumGraph}
    (h : _makeGraph gb tds ins outs iins iouts oi uq = (trace, .ok g)) :
    ∃ pq, gb.parse (uq.getD "") = .ok pq
      ∧ buildTaskNodes gb.skipExisting gb.registry.dimensions
          (gb.registry.selectDimensions oi pq ins outs) tds = .ok g.tasks := by
  unfold _makeGraph _parseUserQuery at h
  cases hp : gb.parse (uq.getD "") with
  | error d => simp [hp] at h
  | ok pq =>
    simp only [hp] at h
    cases hres : resolveInitInputs gb.registry.find oi iins with
    | error e => simp [hres] at h
    | ok refs =>
      simp only [hres] at h
      cases hbt : buildTaskNodes gb.skipExisting gb.registry.dimensions
          (gb.registry.selectDimensions oi pq ins outs) tds with
      | error e => simp [hbt] at h
      | ok nodes =>
        simp only [hbt, Prod.mk.injEq, Except.ok.injEq] at h
        obtain ⟨h1, h2⟩ := h
        subst h2
        exact ⟨pq, rfl, hbt⟩

/-- C10 (implicit invariant): in every `QuantumGraph` that `makeGraph`
returns successfully, every quantum of every task node carries only outputs
whose existing identity is absent (`id = None`), in either `skipExisting`
mode: fully-existing groups are dropped, and any other existing output
raises before the quantum is appended. -/
theorem claim_C10_fresh_outputs (gb : GraphBuilder) (pipeline : List TaskDef)
    (oi : OriginInfo) (uq : Option String) (trace : List Event) (g : QuantumGraph)
    (h : makeGraph gb pipeline oi uq = (trace, .ok g)) :
    g.tasks.all (fun node => node.quanta.all
      (fun q => q.outputs.all (fun r => r.id.isNone))) = true := by
  obtain ⟨pq, hp, hbt⟩ := _makeGraph_tasks h
  simp only [List.all_eq_true]
  intro node hn q hq r hr
  obtain ⟨t, ht, hnode⟩ := buildTaskNodes_mem hbt node hn
  obtain ⟨tin, tout, hg2, hb, heqtd⟩ := taskNodes_eq hnode
  have hid := buildQuanta_outputs_id_none hb q hq r hr
  simp [hid]

def dsOut10 : DatasetType := ⟨"calexp", ["v"]⟩
def refOut10 : DatasetRef := ⟨dsOut10, [("v", 1)], none⟩
def rowC10 : DimensionRow := ⟨[("v", 1)], [(dsOut10, refOut10)]⟩
def tdC10 : TaskDef := ⟨"t10", "T10", some "C10", ⟨⟨["visit"]⟩⟩⟩
def gbC10 : GraphBuilder :=
  { taskFactory := fun n => (n, n),
    registry :=
      { dimensions := fun _ => ["v"],
        selectDimensions := fun _ _ _ _ => [rowC10],
        find := fun _ _ => none },
    skipExisting := true,
    parse := fun _ => .ok none,
    getDatasetTypes := fun _ _ => ⟨[], [dsOut10], [], []⟩ }

/-- Concrete instantiation of `claim_C10_fresh_outputs` on a successful
one-task, one-row, one-quantum build. -/
theorem claim_C10_witness :
    (⟨[], [dsOut10], [], [], [⟨tdC10, [⟨[], [refOut10]⟩]⟩]⟩ : QuantumGraph).tasks.all
      (fun node => node.quanta.all
        (fun q => q.outputs.all (fun r => r.id.isNone))) = true :=
  claim_C10_fresh_outputs gbC10 [tdC10] ⟨fun _ => []⟩ none
    [Event.selectDimensions none]
    ⟨[], [dsOut10], [], [], [⟨tdC10, [⟨[], [refOut10]⟩]⟩]⟩ (by decide)

/-! ### Nested reference lookups and their evolution under `addRefs` -/

/-- The nested lookup dataset type → dedup key → reference inside one
grouping key's accumulated per-type dict. -/
def refLookup (m : TypeMap) (T : DatasetType) (dk : QKey) : Option DatasetRef :=
  alistFind? ((alistFind? m T).getD []) dk

theorem addRefs_ok_forward {row : DimensionRow} :
    ∀ {types : List DatasetType} {m m' : TypeMap},
    addRefs types row m = .ok m' → ∀ T ∈ types, (alistFind? row.datasetRefs T).isSome := by
  intro types
  induction types with
  | nil => intro m m' _ T hT; simp at hT
  | cons T0 rest ih =>
    intro m m' h T hT
    rw [addRefs] at h
    cases hfind : alistFind? row.datasetRefs T0 with
    | none => simp [hfind] at h
    | some r0 =>
      simp only [hfind] at h
      rcases List.mem_cons.mp hT with hT | hT
      · subst hT
        simp [hfind]
      · exact ih h T hT

theorem addRefs_ok_exists {row : DimensionRow} :
    ∀ {types : List DatasetType} (m : TypeMap),
    (∀ T ∈ types, (alistFind? row.datasetRefs T).isSome) →
    ∃ m', addRefs types row m = .ok m' := by
  intro types
  induction types with
  | nil => intro m _; exact ⟨m, rfl⟩
  | cons T0 rest ih =>
    intro m hall
    obtain ⟨r0, hr0⟩ := Option.isSome_iff_exists.mp (hall T0 (List.mem_cons_self _ _))
    obtain ⟨m', hm'⟩ := ih (alistSet m T0
      (alistSet ((alistFind? m T0).getD []) (dataRefKey r0) r0))
      (fun T hT => hall T (List.mem_cons_of_mem _ hT))
    refine ⟨m', ?_⟩
    rw [addRefs, hr0]
    exact hm'

theorem addRefs_refLookup_notmem {row : DimensionRow} {T : DatasetType} :
    ∀ {types : List DatasetType} {m m' : TypeMap},
    addRefs types row m = .ok m' → T ∉ types → ∀ dk,
    refLookup m' T dk = refLookup m T dk := by
  intro types
  induction types with
  | nil =>
    intro m m' h _ dk
    rw [addRefs] at h
    injection h with h'
    subst h'
    rfl
  | cons T0 rest ih =>
    intro m m' h hT dk
    rw [addRefs] at h
    cases hfind : alistFind? row.datasetRefs T0 with
    | none => simp [hfind] at h
    | some r0 =>
      simp only [hfind] at h
      have hT0 : T ≠ T0 := fun hc => hT (hc ▸ List.mem_cons_self _ _)
      rw [ih h (fun hc => hT (List.mem_cons_of_mem _ hc)) dk]
      unfold refLookup
      rw [alistFind?_set_ne _ _ _ _ hT0]

theorem addRefs_refLookup_nekey {row : DimensionRow} {T : DatasetType} {dk : QKey}
    (hkey : ∀ r0, alistFind? row.datasetRefs T = some r0 → dataRefKey r0 ≠ dk) :
    ∀ {types : List DatasetType} {m m' : TypeMap},
    addRefs types row m = .ok m' → refLookup m' T dk = refLookup m T dk := by
  intro types
  induction types with
  | nil =>
    intro m m' h
    rw [addRefs] at h
    injection h with h'
    subst h'
    rfl
  | cons T0 rest ih =>
    intro m m' h
    rw [addRefs] at h
    cases hfind : alistFind? row.datasetRefs T0 with
    | none => simp [hfind] at h
    | some r0 =>
      simp only [hfind] at h
      rw [ih h]
      unfold refLookup
      by_cases hT0 : T = T0
      · subst hT0
        rw [alistFind?_set_self]
        simp only [Option.getD_some]
        have hne := hkey r0 hfind
        rw [alistFind?_set_ne _ _ _ _ (Ne.symm hne)]
      · rw [alistFind?_set_ne _ _ _ _ hT0]

theorem addRefs_refLookup_contrib {row : DimensionRow} {T : DatasetType} {r : DatasetRef}
    (hr : alistFind? row.datasetRefs T = some r) :
    ∀ {types : List DatasetType} {m m' : TypeMap},
    addRefs types row m = .ok m' → T ∈ types →
    refLookup m' T (dataRefKey r) = some r := by
  intro types
  induction types with
  | nil => intro m m' _ hT; simp at hT
  | cons T0 rest ih =>
    intro m m' h hT
    rw [addRefs] at h
    cases hfind : alistFind? row.datasetRefs T0 with
    | none => simp [hfind] at h
    | some r0 =>
      simp only [hfind] at h
      by_cases hTrest : T ∈ rest
      · exact ih h hTrest
      · have hT0 : T = T0 := by
          rcases List.mem_cons.mp hT with hT | hT
          · exact hT
          · exact absurd hT hTrest
        subst hT0
        have hr0 : r0 = r := by
          rw [hr] at hfind
          injection hfind with h'
          exact h'.symm
        subst hr0
        rw [addRefs_refLookup_notmem h hTrest (dataRefKey r0)]
        simp [refLookup, alistFind?_set_self]

/-! ### Contributions of a row to the accumulated output dicts -/

/-- Row `row` contributes reference `r` to grouping key `k`, dataset type
`T`, dedup key `dk` of the per-task output accumulation. -/
def contributesOut (links : List String) (outTypes : List DatasetType) (row : DimensionRow)
    (k : QKey) (T : DatasetType) (dk : QKey) (r : DatasetRef) : Prop :=
  qkeyOf links row = .ok k ∧ T ∈ outTypes ∧ alistFind? row.datasetRefs T = some r
    ∧ dataRefKey r = dk

/-- The nested output lookup of a whole `taskQuantaOutputs` dict. -/
def outRefAt (tout : QuantaMap) (k : QKey) (T : DatasetType) (dk : QKey) : Option DatasetRef :=
  refLookup ((alistFind? tout k).getD []) T dk

theorem groupRow_outRefAt {links : List String} {inT outT : List DatasetType}
    {acc acc' : QuantaMap × QuantaMap} {row : DimensionRow}
    (h : groupRow links inT outT acc row = .ok acc') (k : QKey) (T : DatasetType) (dk : QKey) :
    (∀ r, contributesOut links outT row k T dk r → outRefAt acc'.2 k T dk = some r)
    ∧ ((∀ r, ¬ contributesOut links outT row k T dk r) →
        outRefAt acc'.2 k T dk = outRefAt acc.2 k T dk) := by
  obtain ⟨qk, qi, qo, hq, hi, ho, rfl⟩ := groupRow_eq h
  constructor
  · rintro r ⟨hk, hT, hr, rfl⟩
    have hkq : k = qk := by
      rw [hk] at hq
      exact Except.ok.inj hq
    subst hkq
    unfold outRefAt
    rw [alistFind?_set_self]
    simp only [Option.getD_some]
    exact addRefs_refLookup_contrib hr ho hT
  · intro hnc
    unfold outRefAt
    by_cases hk : k = qk
    · subst hk
      rw [alistFind?_set_self]
      by_cases hT : T ∈ outT
      · cases hrow : alistFind? row.datasetRefs T with
        | none =>
          have := addRefs_ok_forward ho T hT
          rw [hrow] at this
          simp at this
        | some r0 =>
          have hne : dataRefKey r0 ≠ dk := by
            intro hcontra
            exact hnc r0 ⟨hq, hT, hrow, hcontra⟩
          rw [show ((some qo).getD ([] : TypeMap)) = qo from rfl]
          rw [addRefs_refLookup_nekey (fun r0' hr0' => by
            rw [hrow] at hr0'
            rw [← Option.some.inj hr0']
            exact hne) ho]
      · rw [show ((some qo).getD ([] : TypeMap)) = qo from rfl]
        rw [addRefs_refLookup_notmem ho hT dk]
    · rw [alistFind?_set_ne _ _ _ _ hk]

theorem groupRows_outRefAt_val {links : List String} {inT outT : List DatasetType} :
    ∀ {rows : List DimensionRow} {acc p}, groupRows links inT outT acc rows = .ok p →
    ∀ k T dk r, outRefAt p.2 k T dk = some r →
      outRefAt acc.2 k T dk = some r
      ∨ ∃ row ∈ rows, contributesOut links outT row k T dk r := by
  intro rows
  induction rows with
  | nil =>
    intro acc p h k T dk r hl
    rw [groupRows] at h
    injection h with h'
    subst h'
    exact Or.inl hl
  | cons row rest ih =>
    intro acc p h k T dk r hl
    rw [groupRows] at h
    cases hstep : groupRow links inT outT acc row with
    | error e => simp [hstep] at h
    | ok acc' =>
      simp only [hstep] at h
      rcases ih h k T dk r hl with hacc' | ⟨row', hrow', hc⟩
      · by_cases hc : ∃ r', contributesOut links outT row k T dk r'
        · obtain ⟨r', hr'⟩ := hc
          have := (groupRow_outRefAt hstep k T dk).1 r' hr'
          rw [this] at hacc'
          injection hacc' with h'
          subst h'
          exact Or.inr ⟨row, List.mem_cons_self _ _, hr'⟩
        · push_neg at hc
          rw [(groupRow_outRefAt hstep k T dk).2 hc] at hacc'
          exact Or.inl hacc'
      · exact Or.inr ⟨row', List.mem_cons_of_mem _ hrow', hc⟩

theorem groupRows_outRefAt_isSome {links : List String} {inT outT : List DatasetType} :
    ∀ {rows : List DimensionRow} {acc p}, groupRows links inT outT acc rows = .ok p →
    ∀ k T dk, ((outRefAt p.2 k T dk).isSome
      ↔ (outRefAt acc.2 k T dk).isSome
        ∨ ∃ row ∈ rows, ∃ r, contributesOut links outT row k T dk r) := by
  intro rows
  induction rows with
  | nil =>
    intro acc p h k T dk
    rw [groupRows] at h
    injection h with h'
    subst h'
    simp
  | cons row rest ih =>
    intro acc p h k T dk
    rw [groupRows] at h
    cases hstep : groupRow links inT outT acc row with
    | error e => simp [hstep] at h
    | ok acc' =>
      simp only [hstep] at h
      rw [ih h k T dk]
      by_cases hc : ∃ r', contributesOut links outT row k T dk r'
      · obtain ⟨r', hr'⟩ := hc
        rw [(groupRow_outRefAt hstep k T dk).1 r' hr']
        simp only [Option.isSome_some, true_iff, true_or, iff_true]
        exact Or.inr ⟨row, List.mem_cons_self _ _, r', hr'⟩
      · push_neg at hc
        rw [(groupRow_outRefAt hstep k T dk).2 hc]
        constructor
        · rintro (hs | ⟨row', hrow', r', hr'⟩)
          · exact Or.inl hs
          · exact Or.inr ⟨row', List.mem_cons_of_mem _ hrow', r', hr'⟩
        · rintro (hs | ⟨row', hrow', r', hr'⟩)
          · exact Or.inl hs
          · rcases List.mem_cons.mp hrow' with hrow' | hrow'
            · subst hrow'
              exact absurd hr' (hc r')
            · exact Or.inr ⟨row', hrow', r', hr'⟩

/-! ### Structural invariants of the accumulated dicts -/

/-- Well-formed catalog row: every reference is listed under its own
dataset type. -/
def WfRow (row : DimensionRow) : Prop :=
  ∀ p ∈ row.datasetRefs, (p.2).datasetType = p.1

instance (row : DimensionRow) : Decidable (WfRow row) :=
  inferInstanceAs (Decidable (∀ p ∈ row.datasetRefs, (p.2).datasetType = p.1))

/-- Invariant of a per-type dict: keys are unique at both levels and every
inner entry is stored under the dedup key of its own reference. -/
def TypeMapInv (tm : TypeMap) : Prop :=
  ((tm.map Prod.fst).Nodup)
    ∧ ∀ p ∈ tm, ((p.2.map Prod.fst).Nodup ∧ ∀ q ∈ p.2, q.1 = dataRefKey q.2)

/-- With well-formed rows, every stored reference carries the dataset type
it is filed under. -/
def TypeMapTyped (tm : TypeMap) : Prop :=
  ∀ p ∈ tm, ∀ q ∈ p.2, (q.2).datasetType = p.1

theorem addRefs_inv {row : DimensionRow} :
    ∀ {types : List DatasetType} {m m' : TypeMap},
    addRefs types row m = .ok m' → TypeMapInv m → TypeMapInv m' := by
  intro types
  induction types with
  | nil =>
    intro m m' h hm
    rw [addRefs] at h
    injection h with h'
    subst h'
    exact hm
  | cons T0 rest ih =>
    intro m m' h hm
    rw [addRefs] at h
    cases hfind : alistFind? row.datasetRefs T0 with
    | none => simp [hfind] at h
    | some r0 =>
      simp only [hfind] at h
      refine ih h ⟨keysNodup_alistSet _ _ _ hm.1, ?_⟩
      intro p hp
      rcases mem_alistSet_elim hp with hp | hp
      · subst hp
        have hdmInv : (((alistFind? m T0).getD []).map Prod.fst).Nodup
            ∧ ∀ q ∈ (alistFind? m T0).getD [], q.1 = dataRefKey q.2 := by
          cases hfm : alistFind? m T0 with
          | none => simp
          | some dm =>
            have := hm.2 (T0, dm) (alistFind?_eq_some_mem hfm)
            simpa using this
        constructor
        · exact keysNodup_alistSet _ _ _ hdmInv.1
        · intro q hq
          rcases mem_alistSet_elim hq with hq | hq
          · subst hq; rfl
          · exact hdmInv.2 q hq
      · exact hm.2 p hp

theorem addRefs_typed {row : DimensionRow} (hwf : WfRow row) :
    ∀ {types : List DatasetType} {m m' : TypeMap},
    addRefs types row m = .ok m' → TypeMapTyped m → TypeMapTyped m' := by
  intro types
  induction types with
  | nil =>
    intro m m' h hm
    rw [addRefs] at h
    injection h with h'
    subst h'
    exact hm
  | cons T0 rest ih =>
    intro m m' h hm
    rw [addRefs] at h
    cases hfind : alistFind? row.datasetRefs T0 with
    | none => simp [hfind] at h
    | some r0 =>
      simp only [hfind] at h
      refine ih h ?_
      intro p hp
      rcases mem_alistSet_elim hp with hp | hp
      · subst hp
        intro q hq
        rcases mem_alistSet_elim hq with hq | hq
        · subst hq
          exact hwf (T0, r0) (alistFind?_eq_some_mem hfind)
        · cases hfm : alistFind? m T0 with
          | none => rw [hfm] at hq; simp at hq
          | some dm =>
            rw [hfm] at hq
            exact hm (T0, dm) (alistFind?_eq_some_mem hfm) q hq
      · exact hm p hp

theorem groupRows_inv {links : List String} {inT outT : List DatasetType} :
    ∀ {rows : List DimensionRow} {acc p}, groupRows links inT outT acc rows = .ok p →
    (∀ q ∈ acc.2, TypeMapInv q.2) → ∀ q ∈ p.2, TypeMapInv q.2 := by
  intro rows
  induction rows with
  | nil =>
    intro acc p h hacc
    rw [groupRows] at h
    injection h with h'
    subst h'
    exact hacc
  | cons row rest ih =>
    intro acc p h hacc
    rw [groupRows] at h
    cases hstep : groupRow links inT outT acc row with
    | error e => simp [hstep] at h
    | ok acc' =>
      simp only [hstep] at h
      refine ih h ?_
      obtain ⟨qk, qi, qo, hq, hi, ho, rfl⟩ := groupRow_eq hstep
      intro q hq'
      rcases mem_alistSet_elim hq' with hq' | hq'
      · subst hq'
        refine addRefs_inv ho ?_
        cases hfm : alistFind? acc.2 qk with
        | none => simp [TypeMapInv]
        | some tm =>
          have := hacc (qk, tm) (alistFind?_eq_some_mem hfm)
          simpa using this
      · exact hacc q hq'

theorem groupRows_typed {links : List String} {inT outT : List DatasetType} :
    ∀ {rows : List DimensionRow} {acc p}, groupRows links inT outT acc rows = .ok p →
    (∀ row ∈ rows, WfRow row) →
    (∀ q ∈ acc.2, TypeMapTyped q.2) → ∀ q ∈ p.2, TypeMapTyped q.2 := by
  intro rows
  induction rows with
  | nil =>
    intro acc p h _ hacc
    rw [groupRows] at h
    injection h with h'
    subst h'
    exact hacc
  | cons row rest ih =>
    intro acc p h hwf hacc
    rw [groupRows] at h
    cases hstep : groupRow links inT outT acc row with
    | error e => simp [hstep] at h
    | ok acc' =>
      simp only [hstep] at h
      refine ih h (fun row' hr => hwf row' (List.mem_cons_of_mem _ hr)) ?_
      obtain ⟨qk, qi, qo, hq, hi, ho, rfl⟩ := groupRow_eq hstep
      intro q hq'
      rcases mem_alistSet_elim hq' with hq' | hq'
      · subst hq'
        refine addRefs_typed (hwf row (List.mem_cons_self _ _)) ho ?_
        cases hfm : alistFind? acc.2 qk with
        | none => simp [TypeMapTyped]
        | some tm =>
          have := hacc (qk, tm) (alistFind?_eq_some_mem hfm)
          simpa using this
      · exact hacc q hq'

/-! ### Counting: each dataset instance occurs exactly once per quantum -/

theorem filter_refs_nil {l : List DatasetRef} {T : DatasetType} {dk : QKey}
    (h : ∀ x ∈ l, ¬(x.datasetType = T ∧ dataRefKey x = dk)) :
    l.filter (fun x => decide (x.datasetType = T) && decide (dataRefKey x = dk)) = [] := by
  rw [List.filter_eq_nil_iff]
  intro a ha
  have ha' := h a ha
  simp only [Bool.and_eq_true, decide_eq_true_eq]
  exact fun hc => ha' hc

theorem dedup_count_zero {dm : DedupMap} {T : DatasetType} {dk : QKey}
    (hkeys : ∀ q ∈ dm, q.1 = dataRefKey q.2)
    (hne : ∀ q ∈ dm, q.1 ≠ dk) :
    (dm.map Prod.snd).filter
      (fun x => decide (x.datasetType = T) && decide (dataRefKey x = dk)) = [] := by
  apply filter_refs_nil
  intro x hx
  rw [List.mem_map] at hx
  obtain ⟨q, hq, rfl⟩ := hx
  rintro ⟨-, hkey⟩
  exact hne q hq ((hkeys q hq).trans hkey)

theorem dedup_count_one {T : DatasetType} {dk : QKey} {r : DatasetRef} :
    ∀ {dm : DedupMap},
    ((dm.map Prod.fst).Nodup) → (∀ q ∈ dm, q.1 = dataRefKey q.2) →
    (∀ q ∈ dm, (q.2).datasetType = T) →
    alistFind? dm dk = some r →
    ((dm.map Prod.snd).filter
        (fun x => decide (x.datasetType = T) && decide (dataRefKey x = dk))).length = 1 := by
  intro dm
  induction dm with
  | nil => intro _ _ _ hfind; simp [alistFind?_nil] at hfind
  | cons q qs ih =>
    intro hnd hkeys htyped hfind
    rw [alistFind?_cons] at hfind
    rw [List.map_cons]
    by_cases hq : q.1 = dk
    · have hcond : (decide ((q.2).datasetType = T) && decide (dataRefKey q.2 = dk)) = true := by
        have h1 := htyped q (List.mem_cons_self _ _)
        have h2 := (hkeys q (List.mem_cons_self _ _)).symm.trans hq
        simp [h1, h2]
      rw [List.filter_cons, if_pos hcond]
      have hzero : (qs.map Prod.snd).filter
          (fun x => decide (x.datasetType = T) && decide (dataRefKey x = dk)) = [] := by
        apply dedup_count_zero
        · exact fun q' hq' => hkeys q' (List.mem_cons_of_mem _ hq')
        · intro q' hq' hcontra
          apply (List.nodup_cons.mp hnd).1
          rw [← hq] at hcontra
          rw [← hcontra]
          exact List.mem_map.mpr ⟨q', hq', rfl⟩
      rw [hzero]
      rfl
    · rw [if_neg hq] at hfind
      have hcond : ¬((decide ((q.2).datasetType = T) && decide (dataRefKey q.2 = dk)) = true) := by
        have h2 : dataRefKey q.2 ≠ dk :=
          fun hc => hq ((hkeys q (List.mem_cons_self _ _)).trans hc)
        simp [h2]
      rw [List.filter_cons, if_neg hcond]
      exact ih (List.nodup_cons.mp hnd).2
        (fun q' hq' => hkeys q' (List.mem_cons_of_mem _ hq'))
        (fun q' hq' => htyped q' (List.mem_cons_of_mem _ hq')) hfind

theorem flattenTypeMap_cons (p : DatasetType × DedupMap) (rest : TypeMap) :
    flattenTypeMap (p :: rest) = p.2.map Prod.snd ++ flattenTypeMap rest := rfl

theorem flatten_count_zero {T : DatasetType} {dk : QKey} :
    ∀ {tm : TypeMap}, TypeMapTyped tm → (∀ p ∈ tm, p.1 ≠ T) →
    (flattenTypeMap tm).filter
      (fun x => decide (x.datasetType = T) && decide (dataRefKey x = dk)) = [] := by
  intro tm
  induction tm with
  | nil => intro _ _; rfl
  | cons p rest ih =>
    intro htyped hne
    have hhead : (p.2.map Prod.snd).filter
        (fun x => decide (x.datasetType = T) && decide (dataRefKey x = dk)) = [] := by
      apply filter_refs_nil
      intro x hx
      rw [List.mem_map] at hx
      obtain ⟨q, hq, rfl⟩ := hx
      rintro ⟨h1, -⟩
      exact hne p (List.mem_cons_self _ _)
        ((htyped p (List.mem_cons_self _ _) q hq).symm.trans h1)
    rw [flattenTypeMap_cons, List.filter_append, hhead,
      ih (fun p' hp' => htyped p' (List.mem_cons_of_mem _ hp'))
        (fun p' hp' => hne p' (List.mem_cons_of_mem _ hp'))]
    rfl

theorem flatten_count {T : DatasetType} {dk : QKey} {r : DatasetRef} :
    ∀ {tm : TypeMap}, TypeMapInv tm → TypeMapTyped tm → refLookup tm T dk = some r →
    ((flattenTypeMap tm).filter
        (fun x => decide (x.datasetType = T) && decide (dataRefKey x = dk))).length = 1 := by
  intro tm
  induction tm with
  | nil => intro _ _ hlook; simp [refLookup, alistFind?_nil] at hlook
  | cons p rest ih =>
    intro hinv htyped hlook
    obtain ⟨T0, dm0⟩ := p
    rw [flattenTypeMap_cons, List.filter_append, List.length_append]
    unfold refLookup at hlook
    rw [alistFind?_cons] at hlook
    by_cases hT : T0 = T
    · subst hT
      rw [if_pos rfl] at hlook
      simp only [Option.getD_some] at hlook
      have hhead := dedup_count_one
        (hinv.2 (T0, dm0) (List.mem_cons_self _ _)).1
        (hinv.2 (T0, dm0) (List.mem_cons_self _ _)).2
        (htyped (T0, dm0) (List.mem_cons_self _ _)) hlook
      have hT0notin : T0 ∉ rest.map Prod.fst := by
        have := hinv.1
        rw [List.map_cons, List.nodup_cons] at this
        exact this.1
      have hrest : (flattenTypeMap rest).filter
          (fun x => decide (x.datasetType = T0) && decide (dataRefKey x = dk)) = [] := by
        apply flatten_count_zero
        · exact fun p' hp' => htyped p' (List.mem_cons_of_mem _ hp')
        · intro p' hp' hcontra
          exact hT0notin (hcontra ▸ List.mem_map.mpr ⟨p', hp', rfl⟩)
      rw [hrest]
      simp only [List.length_nil, Nat.add_zero]
      exact hhead
    · rw [if_neg hT] at hlook
      have hhead : (dm0.map Prod.snd).filter
          (fun x => decide (x.datasetType = T) && decide (dataRefKey x = dk)) = [] := by
        apply filter_refs_nil
        intro x hx
        rw [List.mem_map] at hx
        obtain ⟨q, hq, rfl⟩ := hx
        rintro ⟨h1, -⟩
        exact hT ((htyped (T0, dm0) (List.mem_cons_self _ _) q hq).symm.trans h1)
      rw [hhead]
      simp only [List.length_nil, Nat.zero_add]
      exact ih
        ⟨(List.nodup_cons.mp (by simpa using hinv.1)).2,
          fun p' hp' => hinv.2 p' (List.mem_cons_of_mem _ hp')⟩
        (fun p' hp' => htyped p' (List.mem_cons_of_mem _ hp')) hlook

theorem buildQuanta_mem {skipExisting : Bool} {taskName : String} {tout : QuantaMap} :
    ∀ {tin : QuantaMap} {qs : List Quantum},
    buildQuanta skipExisting taskName tout tin = .ok qs →
    ∀ k qin, (k, qin) ∈ tin →
    (skipExisting && (flattenTypeMap ((alistFind? tout k).getD [])).all
        (fun ref => ref.id.isSome)) = false →
    mkQuantum qin (flattenTypeMap ((alistFind? tout k).getD [])) ∈ qs := by
  intro tin
  induction tin with
  | nil => intro qs _ k qin hmem _; simp at hmem
  | cons p rest ih =>
    intro qs h k qin hmem hnodrop
    obtain ⟨k0, qin0⟩ := p
    rw [buildQuanta] at h
    cases hfind0 : alistFind? tout k0 with
    | none => simp [hfind0] at h
    | some qout0 =>
      simp only [hfind0] at h
      rcases List.mem_cons.mp hmem with hmem | hmem
      · have hk : k = k0 := congrArg Prod.fst hmem
        have hq : qin = qin0 := congrArg Prod.snd hmem
        subst hk
        subst hq
        rw [hfind0] at hnodrop
        simp only [Option.getD_some] at hnodrop
        rw [if_neg (by rw [hnodrop]; simp)] at h
        cases hany : (flattenTypeMap qout0).any (fun ref => ref.id.isSome) with
        | true => rw [hany] at h; simp at h
        | false =>
          rw [hany] at h
          rw [if_neg (by simp)] at h
          cases hrest : buildQuanta skipExisting taskName tout rest with
          | error e => rw [hrest] at h; simp [Except.map] at h
          | ok qs' =>
            rw [hrest] at h
            simp only [Except.map, Except.ok.injEq] at h
            subst h
            rw [hfind0]
            simp only [Option.getD_some]
            exact List.mem_cons_self _ _
      · by_cases hskip0 : (skipExisting
            && (flattenTypeMap qout0).all (fun ref => ref.id.isSome)) = true
        · rw [if_pos hskip0] at h
          exact ih h k qin hmem hnodrop
        · rw [if_neg hskip0] at h
          cases hany : (flattenTypeMap qout0).any (fun ref => ref.id.isSome) with
          | true => rw [hany] at h; simp at h
          | false =>
            rw [hany] at h
            rw [if_neg (by simp)] at h
            cases hrest : buildQuanta skipExisting taskName tout rest with
            | error e => rw [hrest] at h; simp [Except.map] at h
            | ok qs' =>
              rw [hrest] at h
              simp only [Except.map, Except.ok.injEq] at h
              subst h
              exact List.mem_cons_of_mem _ (ih hrest k qin hmem hnodrop)

/-- Lines 318-323 handle `taskQuantaInputs`/`inputs` exactly as lines
325-330 handle `taskQuantaOutputs`/`outputs`, so swapping the two roles
swaps the two accumulated dicts of a successful `groupRow` step. -/
theorem groupRow_swap_mp {links : List String} {inT outT : List DatasetType}
    {a₁ a₂ p₁ p₂ : QuantaMap} {row : DimensionRow}
    (h : groupRow links inT outT (a₁, a₂) row = .ok (p₁, p₂)) :
    groupRow links outT inT (a₂, a₁) row = .ok (p₂, p₁) := by
  obtain ⟨qk, qi, qo, hq, hi, ho, heq⟩ := groupRow_eq h
  have hi' : addRefs inT row ((alistFind? a₁ qk).getD []) = .ok qi := hi
  have ho' : addRefs outT row ((alistFind? a₂ qk).getD []) = .ok qo := ho
  have h1 : p₁ = alistSet a₁ qk qi := congrArg Prod.fst heq
  have h2 : p₂ = alistSet a₂ qk qo := congrArg Prod.snd heq
  subst h1
  subst h2
  show groupRow links outT inT (a₂, a₁) row = .ok (alistSet a₂ qk qo, alistSet a₁ qk qi)
  unfold groupRow
  simp only [hq, ho', hi']

/-- The swap of `groupRow_swap_mp`, folded over a whole row stream. -/
theorem groupRows_swap {links : List String} {inT outT : List DatasetType} :
    ∀ {rows : List DimensionRow} {a₁ a₂ p₁ p₂ : QuantaMap},
    groupRows links inT outT (a₁, a₂) rows = .ok (p₁, p₂) →
    groupRows links outT inT (a₂, a₁) rows = .ok (p₂, p₁) := by
  intro rows
  induction rows with
  | nil =>
    intro a₁ a₂ p₁ p₂ h
    rw [groupRows] at h ⊢
    injection h with h'
    have h1 : p₁ = a₁ := (congrArg Prod.fst h').symm
    have h2 : p₂ = a₂ := (congrArg Prod.snd h').symm
    subst h1
    subst h2
    rfl
  | cons row rest ih =>
    intro a₁ a₂ p₁ p₂ h
    rw [groupRows] at h ⊢
    cases h1 : groupRow links inT outT (a₁, a₂) row with
    | error e => simp [h1] at h
    | ok q =>
      obtain ⟨q₁, q₂⟩ := q
      simp only [h1] at h
      have h2 := groupRow_swap_mp h1
      simp only [h2]
      exact ih h

/-- The grouping pass starts both dicts from `{}` and only ever writes a
key with dict assignment, so the keys of the accumulated (second) dict
stay unique. -/
theorem groupRows_keysNodup {links : List String} {inT outT : List DatasetType} :
    ∀ {rows : List DimensionRow} {acc p}, groupRows links inT outT acc rows = .ok p →
    ((acc.2.map Prod.fst).Nodup) → ((p.2.map Prod.fst).Nodup) := by
  intro rows
  induction rows with
  | nil =>
    intro acc p h hacc
    rw [groupRows] at h
    injection h with h'
    rw [← h']
    exact hacc
  | cons row rest ih =>
    intro acc p h hacc
    rw [groupRows] at h
    cases h1 : groupRow links inT outT acc row with
    | error e => simp [h1] at h
    | ok acc' =>
      simp only [h1] at h
      obtain ⟨qk, qi, qo, hq, hi, ho, heq⟩ := groupRow_eq h1
      have hacc' : ((acc'.2).map Prod.fst).Nodup := by
        rw [heq]
        exact keysNodup_alistSet _ _ _ hacc
      exact ih h hacc'

/-- C5: dedup idempotence.  For any two buffered rows that project to the
same grouping key and reference the same dataset instance of a declared
dataset type — input or output — (same sorted coordinate, hence the same
dedup key), the quantum built from that key (when it is not skipped)
appears in the result and contains exactly one reference for that
instance, not two: once among its predicted inputs when the type is an
input, and once among its outputs when the type is an output. -/
theorem claim_C5_dedup_idempotence (links : List String)
    (inTypes outTypes : List DatasetType) (rows : List DimensionRow)
    (r1 r2 : DimensionRow) (k : QKey) (dsType : DatasetType) (ref1 ref2 : DatasetRef)
    (tin tout : QuantaMap) (skipExisting : Bool) (taskName : String)
    (qs : List Quantum) (qin : TypeMap)
    (hwf : ∀ row ∈ rows, WfRow row)
    (hr1 : r1 ∈ rows) (hr2 : r2 ∈ rows)
    (hk1 : qkeyOf links r1 = .ok k) (hk2 : qkeyOf links r2 = .ok k)
    (href1 : alistFind? r1.datasetRefs dsType = some ref1)
    (href2 : alistFind? r2.datasetRefs dsType = some ref2)
    (hdk : dataRefKey ref1 = dataRefKey ref2)
    (hgroup : groupRows links inTypes outTypes ([], []) rows = .ok (tin, tout))
    (hqs : buildQuanta skipExisting taskName tout tin = .ok qs)
    (hqin : (k, qin) ∈ tin)
    (hnodrop : (skipExisting && (flattenTypeMap ((alistFind? tout k).getD [])).all
        (fun ref => ref.id.isSome)) = false) :
    (dsType ∈ inTypes →
      ((mkQuantum qin (flattenTypeMap ((alistFind? tout k).getD []))).predictedInputs.filter
          (fun r => decide (r.datasetType = dsType)
            && decide (dataRefKey r = dataRefKey ref1))).length = 1)
  ∧ (dsType ∈ outTypes →
      ((mkQuantum qin (flattenTypeMap ((alistFind? tout k).getD []))).outputs.filter
          (fun r => decide (r.datasetType = dsType)
            && decide (dataRefKey r = dataRefKey ref1))).length = 1)
  ∧ mkQuantum qin (flattenTypeMap ((alistFind? tout k).getD [])) ∈ qs := by
  refine ⟨?_, ?_, buildQuanta_mem hqs k qin hqin hnodrop⟩
  · intro hTin
    have hswap : groupRows links outTypes inTypes ([], []) rows = .ok (tout, tin) :=
      groupRows_swap hgroup
    have hcontrib : ∃ row ∈ rows, ∃ r',
        contributesOut links inTypes row k dsType (dataRefKey ref1) r' :=
      ⟨r1, hr1, ref1, hk1, hTin, href1, rfl⟩
    have hisSome := (groupRows_outRefAt_isSome hswap k dsType (dataRefKey ref1)).mpr
      (Or.inr hcontrib)
    obtain ⟨rC, hrC⟩ := Option.isSome_iff_exists.mp hisSome
    have hrC' : outRefAt tin k dsType (dataRefKey ref1) = some rC := hrC
    have hnd : (tin.map Prod.fst).Nodup := groupRows_keysNodup hswap (by simp)
    have hfk : alistFind? tin k = some qin := mem_alistFind?_of_nodup hnd hqin
    have htminv : TypeMapInv qin :=
      groupRows_inv hswap (by intro q hq; simp at hq) (k, qin) hqin
    have htmtyped : TypeMapTyped qin :=
      groupRows_typed hswap hwf (by intro q hq; simp at hq) (k, qin) hqin
    have hlook : refLookup qin dsType (dataRefKey ref1) = some rC := by
      rw [outRefAt, hfk] at hrC'
      simpa using hrC'
    show ((flattenTypeMap qin).filter
        (fun r => decide (r.datasetType = dsType)
          && decide (dataRefKey r = dataRefKey ref1))).length = 1
    exact flatten_count htminv htmtyped hlook
  · intro hTout
    have hcontrib : ∃ row ∈ rows, ∃ r',
        contributesOut links outTypes row k dsType (dataRefKey ref1) r' :=
      ⟨r1, hr1, ref1, hk1, hTout, href1, rfl⟩
    have hisSome := (groupRows_outRefAt_isSome hgroup k dsType (dataRefKey ref1)).mpr
      (Or.inr hcontrib)
    obtain ⟨rC, hrC⟩ := Option.isSome_iff_exists.mp hisSome
    have hinv := groupRows_inv hgroup (by intro q hq; simp at hq)
    have htypedAll := groupRows_typed hgroup hwf (by intro q hq; simp at hq)
    have hksome : (alistFind? tout k).isSome := by
      cases hfk : alistFind? tout k with
      | none =>
        rw [outRefAt, hfk] at hrC
        simp [refLookup, alistFind?_nil] at hrC
      | some tm => simp
    obtain ⟨tm, htm⟩ := Option.isSome_iff_exists.mp hksome
    have htminv : TypeMapInv tm := hinv (k, tm) (alistFind?_eq_some_mem htm)
    have htmtyped : TypeMapTyped tm := htypedAll (k, tm) (alistFind?_eq_some_mem htm)
    have hlook : refLookup tm dsType (dataRefKey ref1) = some rC := by
      rw [outRefAt, htm] at hrC
      simpa using hrC
    show ((flattenTypeMap ((alistFind? tout k).getD [])).filter
        (fun r => decide (r.datasetType = dsType)
          && decide (dataRefKey r = dataRefKey ref1))).length = 1
    rw [htm]
    simp only [Option.getD_some]
    exact flatten_count htminv htmtyped hlook

def dsC5 : DatasetType := ⟨"calexp5", ["v"]⟩
def refC5 : DatasetRef := ⟨dsC5, [("v", 1)], none⟩
def rowC5 : DimensionRow := ⟨[("v", 1)], [(dsC5, refC5)]⟩
def qinC5 : TypeMap := [(dsC5, [([("v", 1)], refC5)])]
def tinC5 : QuantaMap := [([("v", 1)], qinC5)]
def toutC5 : QuantaMap := [([("v", 1)], qinC5)]

/-- Concrete instantiation of `claim_C5_dedup_idempotence`: two identical
buffered rows referencing the same dataset instance of a type declared
both as an input and as an output contribute one single predicted-input
reference and one single output reference to the one resulting quantum. -/
theorem claim_C5_witness :
    (dsC5 ∈ [dsC5] →
      ((mkQuantum qinC5
            (flattenTypeMap ((alistFind? toutC5 [("v", 1)]).getD []))).predictedInputs.filter
          (fun r => decide (r.datasetType = dsC5)
            && decide (dataRefKey r = dataRefKey refC5))).length = 1)
  ∧ (dsC5 ∈ [dsC5] →
      ((mkQuantum qinC5
            (flattenTypeMap ((alistFind? toutC5 [("v", 1)]).getD []))).outputs.filter
          (fun r => decide (r.datasetType = dsC5)
            && decide (dataRefKey r = dataRefKey refC5))).length = 1)
  ∧ mkQuantum qinC5 (flattenTypeMap ((alistFind? toutC5 [("v", 1)]).getD []))
      ∈ [Quantum.mk [refC5] [refC5]] :=
  claim_C5_dedup_idempotence ["v"] [dsC5] [dsC5] [rowC5, rowC5] rowC5 rowC5 [("v", 1)]
    dsC5 refC5 refC5 tinC5 toutC5 false "t5" [Quantum.mk [refC5] [refC5]] qinC5
    (by decide) (by decide) (by decide) (by decide) (by decide) (by decide)
    (by decide) (by decide) (by decide) (by decide) (by decide) (by decide)

/-! ### C6: determinism up to row order -/

/-- A row that the grouping pass can process without a `KeyError`. -/
def rowSucceeds (links : List String) (inT outT : List DatasetType) (row : DimensionRow) :
    Prop :=
  (∃ qk, qkeyOf links row = .ok qk)
    ∧ (∀ T ∈ inT, (alistFind? row.datasetRefs T).isSome)
    ∧ (∀ T ∈ outT, (alistFind? row.datasetRefs T).isSome)

theorem groupRow_ok_exists {links : List String} {inT outT : List DatasetType}
    {acc : QuantaMap × QuantaMap} {row : DimensionRow}
    (hrow : rowSucceeds links inT outT row) :
    ∃ acc', groupRow links inT outT acc row = .ok acc' := by
  obtain ⟨⟨qk, hqk⟩, hin, hout⟩ := hrow
  obtain ⟨qi, hi⟩ := addRefs_ok_exists ((alistFind? acc.1 qk).getD []) hin
  obtain ⟨qo, ho⟩ := addRefs_ok_exists ((alistFind? acc.2 qk).getD []) hout
  refine ⟨(alistSet acc.1 qk qi, alistSet acc.2 qk qo), ?_⟩
  simp only [groupRow, hqk, hi, ho]

theorem groupRow_ok_forward {links : List String} {inT outT : List DatasetType}
    {acc acc' : QuantaMap × QuantaMap} {row : DimensionRow}
    (h : groupRow links inT outT acc row = .ok acc') : rowSucceeds links inT outT row := by
  obtain ⟨qk, qi, qo, hq, hi, ho, rfl⟩ := groupRow_eq h
  exact ⟨⟨qk, hq⟩, addRefs_ok_forward hi, addRefs_ok_forward ho⟩

theorem groupRows_ok_iff {links : List String} {inT outT : List DatasetType} :
    ∀ {rows : List DimensionRow} {acc : QuantaMap × QuantaMap},
    (∃ p, groupRows links inT outT acc rows = .ok p)
      ↔ ∀ row ∈ rows, rowSucceeds links inT outT row := by
  intro rows
  induction rows with
  | nil =>
    intro acc
    constructor
    · intro _ row hrow
      simp at hrow
    · intro _
      exact ⟨acc, rfl⟩
  | cons row rest ih =>
    intro acc
    constructor
    · rintro ⟨p, h⟩ row' hrow'
      rw [groupRows] at h
      cases hstep : groupRow links inT outT acc row with
      | error e => simp [hstep] at h
      | ok acc' =>
        simp only [hstep] at h
        rcases List.mem_cons.mp hrow' with hrow' | hrow'
        · subst hrow'
          exact groupRow_ok_forward hstep
        · exact ih.mp ⟨p, h⟩ row' hrow'
    · intro hall
      obtain ⟨acc', hstep⟩ := @groupRow_ok_exists links inT outT acc row
        (hall row (List.mem_cons_self _ _))
      obtain ⟨p, hp⟩ := (@ih acc').mpr (fun row' hr => hall row' (List.mem_cons_of_mem _ hr))
      refine ⟨p, ?_⟩
      rw [groupRows]
      simp only [hstep]
      exact hp

/-- Fixed catalog contents: any two buffered rows agree on a dataset
instance they both reference (same dataset type, same sorted coordinate ⇒
the same reference, identity included). -/
def Consistent (rows : List DimensionRow) : Prop :=
  ∀ row ∈ rows, ∀ row' ∈ rows, ∀ p ∈ row.datasetRefs, ∀ p' ∈ row'.datasetRefs,
    p.1 = p'.1 → dataRefKey p.2 = dataRefKey p'.2 → p.2 = p'.2

instance (rows : List DimensionRow) : Decidable (Consistent rows) :=
  inferInstanceAs (Decidable (∀ row ∈ rows, ∀ row' ∈ rows, ∀ p ∈ row.datasetRefs,
    ∀ p' ∈ row'.datasetRefs,
    p.1 = p'.1 → dataRefKey p.2 = dataRefKey p'.2 → p.2 = p'.2))

theorem outRefAt_nil (k : QKey) (T : DatasetType) (dk : QKey) :
    outRefAt ([] : QuantaMap) k T dk = none := rfl

theorem outRefAt_eq_of_perm {links : List String} {inT outT : List DatasetType}
    {rows₁ rows₂ : List DimensionRow} {p₁ p₂ : QuantaMap × QuantaMap}
    (hperm : rows₁.Perm rows₂) (hcons : Consistent rows₁)
    (h1 : groupRows links inT outT ([], []) rows₁ = .ok p₁)
    (h2 : groupRows links inT outT ([], []) rows₂ = .ok p₂) :
    ∀ k T dk, outRefAt p₁.2 k T dk = outRefAt p₂.2 k T dk := by
  intro k T dk
  have hdom : (outRefAt p₁.2 k T dk).isSome ↔ (outRefAt p₂.2 k T dk).isSome := by
    rw [groupRows_outRefAt_isSome h1 k T dk, groupRows_outRefAt_isSome h2 k T dk]
    simp only [outRefAt_nil, Option.isSome_none, Bool.false_eq_true, false_or]
    constructor
    · rintro ⟨row, hrow, hr⟩
      exact ⟨row, hperm.mem_iff.mp hrow, hr⟩
    · rintro ⟨row, hrow, hr⟩
      exact ⟨row, hperm.mem_iff.mpr hrow, hr⟩
  cases ha : outRefAt p₁.2 k T dk with
  | none =>
    cases hb : outRefAt p₂.2 k T dk with
    | none => rfl
    | some r =>
      rw [ha, hb] at hdom
      simp at hdom
  | some r =>
    have hbs : (outRefAt p₂.2 k T dk).isSome := hdom.mp (by rw [ha]; rfl)
    obtain ⟨r', hb⟩ := Option.isSome_iff_exists.mp hbs
    rcases groupRows_outRefAt_val h1 k T dk r ha with hnil | ⟨row, hrow, hc⟩
    · rw [outRefAt_nil] at hnil
      cases hnil
    rcases groupRows_outRefAt_val h2 k T dk r' hb with hnil | ⟨row', hrow', hc'⟩
    · rw [outRefAt_nil] at hnil
      cases hnil
    obtain ⟨hk1', hT1', hfr, hdk1⟩ := hc
    obtain ⟨hk2', hT2', hfr', hdk2⟩ := hc'
    have hrow'1 : row' ∈ rows₁ := hperm.mem_iff.mpr hrow'
    have hrr : r = r' := hcons row hrow row' hrow'1 (T, r) (alistFind?_eq_some_mem hfr)
      (T, r') (alistFind?_eq_some_mem hfr') rfl (hdk1.trans hdk2.symm)
    rw [hb, hrr]

theorem mem_flattenTypeMap {tm : TypeMap} {r : DatasetRef} :
    r ∈ flattenTypeMap tm ↔ ∃ p ∈ tm, ∃ q ∈ p.2, q.2 = r := by
  unfold flattenTypeMap
  rw [List.mem_flatten]
  constructor
  · rintro ⟨l, hl, hr⟩
    rw [List.mem_map] at hl
    obtain ⟨p, hp, rfl⟩ := hl
    rw [List.mem_map] at hr
    obtain ⟨q, hq, rfl⟩ := hr
    exact ⟨p, hp, q, hq, rfl⟩
  · rintro ⟨p, hp, q, hq, rfl⟩
    exact ⟨p.2.map Prod.snd, List.mem_map.mpr ⟨p, hp, rfl⟩, List.mem_map.mpr ⟨q, hq, rfl⟩⟩

theorem mem_flattenTypeMap_iff_refLookup {tm : TypeMap} (hinv : TypeMapInv tm)
    (r : DatasetRef) :
    r ∈ flattenTypeMap tm ↔ ∃ T dk, refLookup tm T dk = some r := by
  rw [mem_flattenTypeMap]
  constructor
  · rintro ⟨p, hp, q, hq, rfl⟩
    refine ⟨p.1, q.1, ?_⟩
    unfold refLookup
    have houter : alistFind? tm p.1 = some p.2 := mem_alistFind?_of_nodup hinv.1 hp
    rw [houter]
    simp only [Option.getD_some]
    exact mem_alistFind?_of_nodup (hinv.2 p hp).1 hq
  · rintro ⟨T, dk, hl⟩
    unfold refLookup at hl
    cases hf : alistFind? tm T with
    | none =>
      rw [hf] at hl
      simp [alistFind?_nil] at hl
    | some dm =>
      rw [hf] at hl
      simp only [Option.getD_some] at hl
      exact ⟨(T, dm), alistFind?_eq_some_mem hf, (dk, r), alistFind?_eq_some_mem hl, rfl⟩

/-- The candidate output list of one grouping key (lines 340-341). -/
def outputsAt (tout : QuantaMap) (k : QKey) : List DatasetRef :=
  flattenTypeMap ((alistFind? tout k).getD [])

theorem outputsAt_mem_iff {tout : QuantaMap} (hinv : ∀ q ∈ tout, TypeMapInv q.2)
    (k : QKey) (r : DatasetRef) :
    r ∈ outputsAt tout k ↔ ∃ T dk, outRefAt tout k T dk = some r := by
  unfold outputsAt outRefAt
  cases hf : alistFind? tout k with
  | none => simp [flattenTypeMap, refLookup, alistFind?_nil]
  | some tm =>
    simp only [Option.getD_some]
    exact mem_flattenTypeMap_iff_refLookup (hinv (k, tm) (alistFind?_eq_some_mem hf)) r

theorem bool_eq_of_iff {a b : Bool} (h : a = true ↔ b = true) : a = b := by
  cases a <;> cases b <;> simp_all

theorem all_congr_mem {l₁ l₂ : List DatasetRef} (h : ∀ r, r ∈ l₁ ↔ r ∈ l₂)
    (f : DatasetRef → Bool) : l₁.all f = l₂.all f := by
  apply bool_eq_of_iff
  simp only [List.all_eq_true]
  exact ⟨fun H r hr => H r ((h r).mpr hr), fun H r hr => H r ((h r).mp hr)⟩

theorem any_congr_mem {l₁ l₂ : List DatasetRef} (h : ∀ r, r ∈ l₁ ↔ r ∈ l₂)
    (f : DatasetRef → Bool) : l₁.any f = l₂.any f := by
  apply bool_eq_of_iff
  simp only [List.any_eq_true]
  constructor
  · rintro ⟨r, hr, hf⟩
    exact ⟨r, (h r).mp hr, hf⟩
  · rintro ⟨r, hr, hf⟩
    exact ⟨r, (h r).mpr hr, hf⟩

theorem buildQuanta_sig {skipExisting : Bool} {taskName : String} {tout : QuantaMap} :
    ∀ {tin : QuantaMap} {qs : List Quantum},
    buildQuanta skipExisting taskName tout tin = .ok qs →
    qs = (tin.filter (fun p => !(skipExisting
            && (outputsAt tout p.1).all (fun ref => ref.id.isSome)))).map
          (fun p => mkQuantum p.2 (outputsAt tout p.1)) := by
  intro tin
  induction tin with
  | nil =>
    intro qs h
    rw [buildQuanta] at h
    injection h with h'
    subst h'
    rfl
  | cons p rest ih =>
    intro qs h
    obtain ⟨k0, qin0⟩ := p
    rw [buildQuanta] at h
    cases hfind0 : alistFind? tout k0 with
    | none => simp [hfind0] at h
    | some qout0 =>
      simp only [hfind0] at h
      have houts : outputsAt tout k0 = flattenTypeMap qout0 := by
        unfold outputsAt
        rw [hfind0]
        rfl
      by_cases hskip : (skipExisting
          && (flattenTypeMap qout0).all (fun ref => ref.id.isSome)) = true
      · rw [if_pos hskip] at h
        have hcnot : ¬((!(skipExisting
            && (outputsAt tout (k0, qin0).1).all (fun ref => ref.id.isSome))) = true) := by
          simp only [houts]
          simp [hskip]
        rw [List.filter_cons, if_neg hcnot]
        exact ih h
      · rw [if_neg hskip] at h
        cases hany : (flattenTypeMap qout0).any (fun ref => ref.id.isSome) with
        | true => rw [hany] at h; simp at h
        | false =>
          rw [hany] at h
          rw [if_neg (by simp)] at h
          cases hrest : buildQuanta skipExisting taskName tout rest with
          | error e => rw [hrest] at h; simp [Except.map] at h
          | ok qs' =>
            rw [hrest] at h
            simp only [Except.map, Except.ok.injEq] at h
            subst h
            have hcyes : ((!(skipExisting
                && (outputsAt tout (k0, qin0).1).all (fun ref => ref.id.isSome))) = true) := by
              cases hx : (skipExisting
                  && (flattenTypeMap qout0).all (fun ref => ref.id.isSome)) with
              | true => exact absurd hx hskip
              | false => simp [houts, hx]
            rw [List.filter_cons, if_pos hcyes, List.map_cons, ih hrest, houts]

def keyFails (skipExisting : Bool) (tout : QuantaMap) (k : QKey) : Bool :=
  (!(skipExisting && (outputsAt tout k).all (fun ref => ref.id.isSome)))
    && (outputsAt tout k).any (fun ref => ref.id.isSome)

theorem buildQuanta_ok_forward {skipExisting : Bool} {taskName : String} {tout : QuantaMap} :
    ∀ {tin : QuantaMap} {qs : List Quantum},
    buildQuanta skipExisting taskName tout tin = .ok qs →
    ∀ p ∈ tin, (alistFind? tout p.1).isSome ∧ keyFails skipExisting tout p.1 = false := by
  intro tin
  induction tin with
  | nil => intro qs _ p hp; simp at hp
  | cons p0 rest ih =>
    intro qs h p hp
    obtain ⟨k0, qin0⟩ := p0
    rw [buildQuanta] at h
    cases hfind0 : alistFind? tout k0 with
    | none => simp [hfind0] at h
    | some qout0 =>
      simp only [hfind0] at h
      have houts : outputsAt tout k0 = flattenTypeMap qout0 := by
        unfold outputsAt
        rw [hfind0]
        rfl
      by_cases hskip : (skipExisting
          && (flattenTypeMap qout0).all (fun ref => ref.id.isSome)) = true
      · rw [if_pos hskip] at h
        rcases List.mem_cons.mp hp with hp | hp
        · subst hp
          refine ⟨by simp [hfind0], ?_⟩
          unfold keyFails
          simp only [houts]
          rw [hskip]
          rfl
        · exact ih h p hp
      · rw [if_neg hskip] at h
        cases hany : (flattenTypeMap qout0).any (fun ref => ref.id.isSome) with
        | true => rw [hany] at h; simp at h
        | false =>
          rw [hany] at h
          rw [if_neg (by simp)] at h
          cases hrest : buildQuanta skipExisting taskName tout rest with
          | error e => rw [hrest] at h; simp [Except.map] at h
          | ok qs' =>
            rcases List.mem_cons.mp hp with hp | hp
            · subst hp
              refine ⟨by simp [hfind0], ?_⟩
              unfold keyFails
              simp only [houts]
              rw [hany]
              simp
            · exact ih hrest p hp

theorem buildQuanta_ok_exists {skipExisting : Bool} {taskName : String} {tout : QuantaMap} :
    ∀ {tin : QuantaMap},
    (∀ p ∈ tin, (alistFind? tout p.1).isSome ∧ keyFails skipExisting tout p.1 = false) →
    ∃ qs, buildQuanta skipExisting taskName tout tin = .ok qs := by
  intro tin
  induction tin with
  | nil => intro _; exact ⟨[], rfl⟩
  | cons p0 rest ih =>
    intro hall
    obtain ⟨k0, qin0⟩ := p0
    obtain ⟨hsome0, hkf0⟩ := hall (k0, qin0) (List.mem_cons_self _ _)
    obtain ⟨qout0, hfind0⟩ := Option.isSome_iff_exists.mp hsome0
    obtain ⟨qs', hrest⟩ := ih (fun p hp => hall p (List.mem_cons_of_mem _ hp))
    have houts : outputsAt tout k0 = flattenTypeMap qout0 := by
      unfold outputsAt
      rw [hfind0]
      rfl
    by_cases hskip : (skipExisting
        && (flattenTypeMap qout0).all (fun ref => ref.id.isSome)) = true
    · refine ⟨qs', ?_⟩
      rw [buildQuanta]
      simp only [hfind0]
      rw [if_pos hskip]
      exact hrest
    · have hany : (flattenTypeMap qout0).any (fun ref => ref.id.isSome) = false := by
        unfold keyFails at hkf0
        rw [houts] at hkf0
        cases hx : (flattenTypeMap qout0).any (fun ref => ref.id.isSome) with
        | false => rfl
        | true =>
          rw [hx] at hkf0
          rw [Bool.and_true] at hkf0
          rw [Bool.not_eq_false'] at hkf0
          exact absurd hkf0 hskip
      refine ⟨mkQuantum qin0 (flattenTypeMap qout0) :: qs', ?_⟩
      rw [buildQuanta]
      simp only [hfind0]
      rw [if_neg hskip, hany]
      rw [if_neg (by simp)]
      rw [hrest]
      rfl

/-- The "same quanta" observable of the determinism claim: the set of
dedup-key sets of the quanta's outputs. -/
def sigOf (quanta : List Quantum) : Finset (Finset QKey) :=
  (quanta.map (fun q => (q.outputs.map dataRefKey).toFinset)).toFinset

theorem sigOf_char {skipExisting : Bool} {taskName : String} {tout : QuantaMap}
    {tin : QuantaMap} {qs : List Quantum}
    (h : buildQuanta skipExisting taskName tout tin = .ok qs) (s : Finset QKey) :
    s ∈ sigOf qs ↔ ∃ k, (alistFind? tin k).isSome
      ∧ (!(skipExisting && (outputsAt tout k).all (fun ref => ref.id.isSome))) = true
      ∧ ((outputsAt tout k).map dataRefKey).toFinset = s := by
  rw [buildQuanta_sig h]
  unfold sigOf
  simp only [List.mem_toFinset, List.mem_map, List.mem_filter, mkQuantum]
  constructor
  · rintro ⟨q, ⟨p, ⟨hp, hcond⟩, rfl⟩, rfl⟩
    exact ⟨p.1, (alistFind?_isSome_iff tin p.1).mpr (List.mem_map.mpr ⟨p, hp, rfl⟩),
      hcond, rfl⟩
  · rintro ⟨k, hsome, hcond, rfl⟩
    obtain ⟨qin, hqin⟩ := Option.isSome_iff_exists.mp hsome
    exact ⟨{ predictedInputs := flattenTypeMap qin, outputs := outputsAt tout k },
      ⟨(k, qin), ⟨alistFind?_eq_some_mem hqin, hcond⟩, rfl⟩, rfl⟩

theorem _makeGraph_ok_elim {gb : GraphBuilder} {tds : List TaskDatasetTypes}
    {ins outs iins iouts : List DatasetType} {oi : OriginInfo} {uq : Option String}
    {trace : List Event} {g : QuantumGraph}
    (h : _makeGraph gb tds ins outs iins iouts oi uq = (trace, .ok g)) :
    ∃ pq refs, gb.parse (uq.getD "") = .ok pq
      ∧ resolveInitInputs gb.registry.find oi iins = .ok refs
      ∧ buildTaskNodes gb.skipExisting gb.registry.dimensions
          (gb.registry.selectDimensions oi pq ins outs) tds = .ok g.tasks := by
  unfold _makeGraph _parseUserQuery at h
  cases hp : gb.parse (uq.getD "") with
  | error d => simp [hp] at h
  | ok pq =>
    simp only [hp] at h
    cases hres : resolveInitInputs gb.registry.find oi iins with
    | error e => simp [hres] at h
    | ok refs =>
      simp only [hres] at h
      cases hbt : buildTaskNodes gb.skipExisting gb.registry.dimensions
          (gb.registry.selectDimensions oi pq ins outs) tds with
      | error e => simp [hbt] at h
      | ok nodes =>
        simp only [hbt, Prod.mk.injEq, Except.ok.injEq] at h
        obtain ⟨h1, h2⟩ := h
        subst h2
        exact ⟨pq, refs, rfl, rfl, hbt⟩

theorem _makeGraph_assemble {gb : GraphBuilder} {tds : List TaskDatasetTypes}
    {ins outs iins iouts : List DatasetType} {oi : OriginInfo} {uq : Option String}
    {pq : Option String} {refs : List DatasetRef} {nodes : List QuantumGraphTaskNodes}
    (hp : gb.parse (uq.getD "") = .ok pq)
    (hres : resolveInitInputs gb.registry.find oi iins = .ok refs)
    (hbt : buildTaskNodes gb.skipExisting gb.registry.dimensions
        (gb.registry.selectDimensions oi pq ins outs) tds = .ok nodes) :
    _makeGraph gb tds ins outs iins iouts oi uq
      = ([Event.selectDimensions pq],
         .ok { inputDatasetTypes := ins, outputDatasetTypes := outs, initInputs := refs,
               initOutputs := iouts.map (fun dsType => DatasetRef.mk dsType [] none),
               tasks := nodes }) := by
  simp [_makeGraph, _parseUserQuery, hp, hres, hbt]

theorem taskNodes_det {skipExisting : Bool} {dims : String → List String}
    {rows₁ rows₂ : List DimensionRow} {t : TaskDatasetTypes} {tn₁ : QuantumGraphTaskNodes}
    (hperm : rows₁.Perm rows₂) (hcons : Consistent rows₁)
    (h1 : taskNodes skipExisting dims rows₁ t = .ok tn₁) :
    ∃ tn₂, taskNodes skipExisting dims rows₂ t = .ok tn₂
      ∧ tn₂.taskDef = tn₁.taskDef ∧ sigOf tn₂.quanta = sigOf tn₁.quanta := by
  obtain ⟨ti₁, to₁, hg1, hb1, htd1⟩ := taskNodes_eq h1
  have hall₂ : ∀ row ∈ rows₂,
      rowSucceeds (qlinks dims t.taskDef) t.inputs t.outputs row := by
    intro row hrow
    exact groupRows_ok_iff.mp ⟨(ti₁, to₁), hg1⟩ row (hperm.mem_iff.mpr hrow)
  obtain ⟨p₂, hg2⟩ := (@groupRows_ok_iff (qlinks dims t.taskDef) t.inputs t.outputs
      rows₂ ([], [])).mpr hall₂
  obtain ⟨ti₂, to₂⟩ := p₂
  have hdomk : ∀ k, (alistFind? ti₂ k).isSome ↔ (alistFind? ti₁ k).isSome := by
    intro k
    rw [(groupRows_keys hg2 k).1, (groupRows_keys hg1 k).1]
    simp only [alistFind?_nil, Option.isSome_none, Bool.false_eq_true, false_or]
    constructor
    · rintro ⟨row, hrow, hq⟩
      exact ⟨row, hperm.mem_iff.mpr hrow, hq⟩
    · rintro ⟨row, hrow, hq⟩
      exact ⟨row, hperm.mem_iff.mp hrow, hq⟩
  have hval := outRefAt_eq_of_perm hperm hcons hg1 hg2
  have hinv₁ : ∀ q ∈ to₁, TypeMapInv q.2 :=
    groupRows_inv hg1 (by intro q hq; simp at hq)
  have hinv₂ : ∀ q ∈ to₂, TypeMapInv q.2 :=
    groupRows_inv hg2 (by intro q hq; simp at hq)
  have hmem : ∀ k r, r ∈ outputsAt to₂ k ↔ r ∈ outputsAt to₁ k := by
    intro k r
    rw [outputsAt_mem_iff hinv₂ k r, outputsAt_mem_iff hinv₁ k r]
    constructor
    · rintro ⟨T, dk, hr⟩
      refine ⟨T, dk, ?_⟩
      rw [hval k T dk]
      exact hr
    · rintro ⟨T, dk, hr⟩
      refine ⟨T, dk, ?_⟩
      rw [← hval k T dk]
      exact hr
  have hok₂ : ∀ p ∈ ti₂,
      (alistFind? to₂ p.1).isSome ∧ keyFails skipExisting to₂ p.1 = false := by
    intro p hp
    have hk₂ : (alistFind? ti₂ p.1).isSome :=
      (alistFind?_isSome_iff _ _).mpr (List.mem_map.mpr ⟨p, hp, rfl⟩)
    have hk₁ : (alistFind? ti₁ p.1).isSome := (hdomk p.1).mp hk₂
    obtain ⟨qin₁, hqin₁⟩ := Option.isSome_iff_exists.mp hk₁
    have h1f := buildQuanta_ok_forward hb1 (p.1, qin₁) (alistFind?_eq_some_mem hqin₁)
    constructor
    · rw [(groupRows_keys hg2 p.1).2]
      have hx := (groupRows_keys hg2 p.1).1.mp hk₂
      rcases hx with hx | hx
      · simp [alistFind?_nil] at hx
      · exact Or.inr hx
    · have hKeq : keyFails skipExisting to₂ p.1 = keyFails skipExisting to₁ p.1 := by
        unfold keyFails
        rw [all_congr_mem (hmem p.1) (fun ref => ref.id.isSome),
          any_congr_mem (hmem p.1) (fun ref => ref.id.isSome)]
      rw [hKeq]
      exact h1f.2
  obtain ⟨qs₂, hb2⟩ := @buildQuanta_ok_exists skipExisting t.taskDef.taskName to₂ ti₂ hok₂
  refine ⟨⟨t.taskDef, qs₂⟩, ?_, htd1.symm, ?_⟩
  · unfold taskNodes
    simp only [hg2, hb2]
  · apply Finset.ext
    intro s
    rw [show sigOf (QuantumGraphTaskNodes.mk t.taskDef qs₂).quanta = sigOf qs₂ from rfl]
    rw [sigOf_char hb2 s, sigOf_char hb1 s]
    have hsurv : ∀ k, (!(skipExisting
        && (outputsAt to₂ k).all (fun ref => ref.id.isSome)))
        = (!(skipExisting && (outputsAt to₁ k).all (fun ref => ref.id.isSome))) := by
      intro k
      rw [all_congr_mem (hmem k) (fun ref => ref.id.isSome)]
    have hks : ∀ k, ((outputsAt to₂ k).map dataRefKey).toFinset
        = ((outputsAt to₁ k).map dataRefKey).toFinset := by
      intro k
      apply Finset.ext
      intro x
      simp only [List.mem_toFinset, List.mem_map]
      constructor
      · rintro ⟨r, hr, rfl⟩
        exact ⟨r, (hmem k r).mp hr, rfl⟩
      · rintro ⟨r, hr, rfl⟩
        exact ⟨r, (hmem k r).mpr hr, rfl⟩
    constructor
    · rintro ⟨k, hsome, hcond, hs⟩
      refine ⟨k, (hdomk k).mp hsome, ?_, ?_⟩
      · rw [← hsurv k]
        exact hcond
      · rw [← hks k]
        exact hs
    · rintro ⟨k, hsome, hcond, hs⟩
      refine ⟨k, (hdomk k).mpr hsome, ?_, ?_⟩
      · rw [hsurv k]
        exact hcond
      · rw [hks k]
        exact hs

theorem buildTaskNodes_det {skipExisting : Bool} {dims : String → List String}
    {rows₁ rows₂ : List DimensionRow}
    (hperm : rows₁.Perm rows₂) (hcons : Consistent rows₁) :
    ∀ {tds : List TaskDatasetTypes} {ns₁ : List QuantumGraphTaskNodes},
    buildTaskNodes skipExisting dims rows₁ tds = .ok ns₁ →
    ∃ ns₂, buildTaskNodes skipExisting dims rows₂ tds = .ok ns₂
      ∧ ns₂.map (fun tn => (tn.taskDef, sigOf tn.quanta))
          = ns₁.map (fun tn => (tn.taskDef, sigOf tn.quanta)) := by
  intro tds
  induction tds with
  | nil =>
    intro ns₁ h
    rw [buildTaskNodes] at h
    injection h with h'
    subst h'
    exact ⟨[], rfl, rfl⟩
  | cons t rest ih =>
    intro ns₁ h
    rw [buildTaskNodes] at h
    cases ht : taskNodes skipExisting dims rows₁ t with
    | error e => simp [ht] at h
    | ok node =>
      simp only [ht] at h
      cases hrest : buildTaskNodes skipExisting dims rows₁ rest with
      | error e => simp [hrest] at h
      | ok nodes' =>
        simp only [hrest, Except.ok.injEq] at h
        subst h
        obtain ⟨tn₂, ht₂, htd, hsig⟩ := taskNodes_det hperm hcons ht
        obtain ⟨ns₂', hrest₂, hmap⟩ := ih hrest
        refine ⟨tn₂ :: ns₂', ?_, ?_⟩
        · rw [buildTaskNodes]
          simp only [ht₂, hrest₂]
        · rw [List.map_cons, List.map_cons, hmap, htd, hsig]

theorem _makeGraph_det {gb : GraphBuilder}
    {sel₂ : OriginInfo → Option String → List DatasetType → List DatasetType →
      List DimensionRow}
    {tds : List TaskDatasetTypes} {ins outs iins iouts : List DatasetType}
    {oi : OriginInfo} {uq : Option String} {trace₁ : List Event} {g₁ : QuantumGraph}
    (hperm : ∀ e, (gb.registry.selectDimensions oi e ins outs).Perm (sel₂ oi e ins outs))
    (hcons : ∀ e, Consistent (gb.registry.selectDimensions oi e ins outs))
    (h1 : _makeGraph gb tds ins outs iins iouts oi uq = (trace₁, .ok g₁)) :
    ((_makeGraph { gb with registry := { gb.registry with selectDimensions := sel₂ } }
        tds ins outs iins iouts oi uq).2).map
      (fun g => g.tasks.map (fun tn => (tn.taskDef, sigOf tn.quanta)))
      = .ok (g₁.tasks.map (fun tn => (tn.taskDef, sigOf tn.quanta))) := by
  obtain ⟨pq, refs, hp, hres, hbt⟩ := _makeGraph_ok_elim h1
  obtain ⟨ns₂, hbt₂, hmap⟩ := buildTaskNodes_det (hperm pq) (hcons pq) hbt
  have hp₂ : ({ gb with registry :=
      { gb.registry with selectDimensions := sel₂ } } : GraphBuilder).parse (uq.getD "")
      = .ok pq := hp
  have hres₂ : resolveInitInputs ({ gb with registry :=
      { gb.registry with selectDimensions := sel₂ } } : GraphBuilder).registry.find oi iins
      = .ok refs := hres
  have hbt₂' : buildTaskNodes
      ({ gb with registry := { gb.registry with selectDimensions := sel₂ } } :
        GraphBuilder).skipExisting
      ({ gb with registry := { gb.registry with selectDimensions := sel₂ } } :
        GraphBuilder).registry.dimensions
      (({ gb with registry := { gb.registry with selectDimensions := sel₂ } } :
        GraphBuilder).registry.selectDimensions oi pq ins outs) tds = .ok ns₂ := hbt₂
  rw [_makeGraph_assemble hp₂ hres₂ hbt₂']
  simp only [Except.map]
  rw [hmap]

/-- C6: determinism up to row order.  For a fixed pipeline, fixed catalog
contents (`Consistent`: any two returned rows agree on a dataset instance
they both reference) and fixed user query, a run of `makeGraph` against a
catalog returning the same rows in any other order produces a graph with
the identical task → set-of-dedup-key-sets-of-outputs mapping — and it
succeeds whenever the first run succeeds. -/
theorem claim_C6_determinism (gb : GraphBuilder)
    (sel₂ : OriginInfo → Option String → List DatasetType → List DatasetType →
      List DimensionRow)
    (pipeline : List TaskDef) (oi : OriginInfo) (uq : Option String)
    (trace₁ : List Event) (g₁ : QuantumGraph)
    (hperm : ∀ oi' e i o, (gb.registry.selectDimensions oi' e i o).Perm (sel₂ oi' e i o))
    (hcons : ∀ oi' e i o, Consistent (gb.registry.selectDimensions oi' e i o))
    (h1 : makeGraph gb pipeline oi uq = (trace₁, .ok g₁)) :
    ((makeGraph { gb with registry := { gb.registry with selectDimensions := sel₂ } }
        pipeline oi uq).2).map
      (fun g => g.tasks.map (fun tn => (tn.taskDef, sigOf tn.quanta)))
      = .ok (g₁.tasks.map (fun tn => (tn.taskDef, sigOf tn.quanta))) :=
  _makeGraph_det (fun e => hperm oi e _ _) (fun e => hcons oi e _ _) h1

def dsC6 : DatasetType := ⟨"calexp6", ["v"]⟩
def refC6 : DatasetRef := ⟨dsC6, [("v", 1)], none⟩
def rowC6 : DimensionRow := ⟨[("v", 1)], [(dsC6, refC6)]⟩
def tdC6 : TaskDef := ⟨"t6", "T6", some "C6", ⟨⟨["visit"]⟩⟩⟩
def gbC6 : GraphBuilder :=
  { taskFactory := fun n => (n, n),
    registry :=
      { dimensions := fun _ => ["v"],
        selectDimensions := fun _ _ _ _ => [rowC6],
        find := fun _ _ => none },
    skipExisting := true,
    parse := fun _ => .ok none,
    getDatasetTypes := fun _ _ => ⟨[], [dsC6], [], []⟩ }

/-- Concrete instantiation of `claim_C6_determinism` on a one-task,
one-row build whose second run receives the same (trivially permuted)
row list. -/
theorem claim_C6_witness :
    ((makeGraph { gbC6 with registry :=
        { gbC6.registry with selectDimensions := fun _ _ _ _ => [rowC6] } }
        [tdC6] ⟨fun _ => []⟩ none).2).map
      (fun g => g.tasks.map (fun tn => (tn.taskDef, sigOf tn.quanta)))
      = .ok ((⟨[], [dsC6], [], [],
          [⟨tdC6, [⟨[], [refC6]⟩]⟩]⟩ : QuantumGraph).tasks.map
            (fun tn => (tn.taskDef, sigOf tn.quanta))) :=
  claim_C6_determinism gbC6 (fun _ _ _ _ => [rowC6]) [tdC6] ⟨fun _ => []⟩ none
    [Event.selectDimensions none]
    ⟨[], [dsC6], [], [], [⟨tdC6, [⟨[], [refC6]⟩]⟩]⟩
    (fun _ _ _ _ => List.Perm.refl _)
    (fun a b c d => by
      show Consistent [rowC6]
      decide)
    (by decide)

end PipeBase
